import Mathlib

/-!
Verification development for the netmap memory allocator and veth peer-ring
protocol (`sys/dev/netmap/netmap_mem2.c` and `LINUX/veth_netmap.h`).

The C data structures and functions are shallowly embedded: machine words are
`Nat` with explicit 32-bit masking where overflow matters, pointers become
`Nat` addresses (with `Option` for possibly-NULL lookup-table entries), and
kernel memory allocation is modelled by explicit oracles.  Each embedded
definition keeps the name of the C function it translates.
-/

namespace Netmap

/-- `PAGE_SIZE` assumed by `netmap_mem2.c` cluster-geometry computation. -/
def PAGE_SIZE : Nat := 4096

/-- `NM_CACHE_ALIGN` (`LINE_ROUND` in `netmap_config_obj_allocator`). -/
def LINE_ROUND : Nat := 64

/-- `MAX_CLUSTSIZE` = 1 << 22, from `netmap_config_obj_allocator`. -/
def MAX_CLUSTSIZE : Nat := 1 <<< 22

/-- POSIX `EINVAL`, the code returned on invalid configuration. -/
def EINVAL : Nat := 22

/-- POSIX `ENOMEM`, the code returned on memory exhaustion. -/
def ENOMEM : Nat := 12

/-- `struct netmap_slot`: `{buf_idx: u32, len: u16, flags: u16}`. -/
structure netmap_slot where
  buf_idx : Nat
  len : Nat
  flags : Nat
  deriving DecidableEq, Repr, Inhabited

/-- Modelled from the spec: `nm_next` ring-index advance (the macro lives in
`netmap_kern.h`, which is not part of the sources here).  The spec says ring
indices "advance ... modulo their ring size"; `lim` is `num_slots - 1`. -/
def nm_next (i lim : Nat) : Nat :=
  if i = lim then 0 else i + 1

/-- Modelled from the spec: `nm_prev` ring-index decrement modulo ring size
(`netmap_kern.h`, not part of the sources here); `lim` is `num_slots - 1`. -/
def nm_prev (i lim : Nat) : Nat :=
  if i = 0 then lim else i - 1

/-- The state of one kring together with the slot array of its shared
`netmap_ring` (fields of `struct netmap_kring` used by `veth_netmap_txsync`). -/
structure VethKring where
  nkr_num_slots : Nat
  nr_hwcur : Nat
  nr_hwtail : Nat
  rhead : Nat
  slot : List netmap_slot
  deriving DecidableEq, Repr

/-- The swap loop of `veth_netmap_txsync`:
`for (n = 0; nm_i != head && nm_j != peer_hwtail_lim; n++) { tmp = *slot;
*slot = *peer_slot; *peer_slot = tmp; nm_i = nm_next(nm_i, lim); nm_j =
nm_next(nm_j, lim_peer); }`.  The fuel argument only serves termination; the
loop itself stops on its own conditions after at most `lim + 1` steps because
`nm_i` cycles through the ring until it meets `head`. -/
def veth_swap_loop (head jlim lim lim_peer : Nat) :
    Nat → List netmap_slot → List netmap_slot → Nat → Nat → Nat →
    List netmap_slot × List netmap_slot × Nat × Nat × Nat
  | 0, txs, rxs, nm_i, nm_j, n => (txs, rxs, nm_i, nm_j, n)
  | fuel + 1, txs, rxs, nm_i, nm_j, n =>
    if nm_i = head ∨ nm_j = jlim then
      (txs, rxs, nm_i, nm_j, n)
    else
      let s := txs.getD nm_i default
      let peer_s := rxs.getD nm_j default
      veth_swap_loop head jlim lim lim_peer fuel
        (txs.set nm_i peer_s) (rxs.set nm_j s)
        (nm_next nm_i lim) (nm_next nm_j lim_peer) (n + 1)

/-- `veth_netmap_txsync`.  `carrier` is `netif_carrier_ok(ifp)`.  Returns the
updated TX kring, the updated peer RX kring, and whether `nm_notify` was
invoked on the peer.  Memory barriers have no effect in this sequential
model and are omitted. -/
def veth_netmap_txsync (carrier : Bool) (txkring rxkring : VethKring) :
    VethKring × VethKring × Bool :=
  if ¬carrier then (txkring, rxkring, false)
  else
    let lim := txkring.nkr_num_slots - 1
    let head := txkring.rhead
    let lim_peer := rxkring.nkr_num_slots - 1
    let nm_i := txkring.nr_hwcur
    let nm_j := rxkring.nr_hwtail
    let peer_hwtail_lim := nm_prev rxkring.nr_hwcur lim_peer
    if nm_i ≠ head then
      let r := veth_swap_loop head peer_hwtail_lim lim lim_peer
        (lim + 1) txkring.slot rxkring.slot nm_i nm_j 0
      let txs := r.1
      let rxs := r.2.1
      let nm_i' := r.2.2.1
      let nm_j' := r.2.2.2.1
      let n := r.2.2.2.2
      let rx_hwtail := if nm_j' > lim_peer then nm_j' - (lim_peer + 1) else nm_j'
      let tx_hwtail0 := txkring.nr_hwtail + n
      let tx_hwtail := if tx_hwtail0 > lim then tx_hwtail0 - (lim + 1) else tx_hwtail0
      ({ txkring with slot := txs, nr_hwcur := nm_i', nr_hwtail := tx_hwtail },
       { rxkring with slot := rxs, nr_hwtail := rx_hwtail },
       true)
    else
      (txkring, rxkring, false)

/-- The multiset of `buf_idx` values of a slot array. -/
def bufIdxMultiset (l : List netmap_slot) : Multiset Nat :=
  (l.map netmap_slot.buf_idx : Multiset Nat)

theorem multiset_coe_set {α : Type} (l : List α) (i : Nat) (x d : α)
    (h : i < l.length) :
    ((l.set i x : List α) : Multiset α) + {l.getD i d} =
      (l : Multiset α) + {x} := by
  induction l generalizing i with
  | nil => simp at h
  | cons hd tl ih =>
    cases i with
    | zero =>
      simp only [List.set, List.getD, List.get?, Option.getD]
      rw [← Multiset.cons_coe, ← Multiset.cons_coe]
      rw [add_comm, Multiset.singleton_add, add_comm, Multiset.singleton_add,
        Multiset.cons_swap]
    | succ i =>
      simp only [List.set, List.getD_cons_succ]
      rw [← Multiset.cons_coe, ← Multiset.cons_coe]
      have := ih i (by simpa using h)
      simp only [Multiset.cons_add]
      rw [this]

theorem veth_swap_loop_multiset (head jlim lim lim_peer : Nat)
    (fuel : Nat) :
    ∀ (txs rxs : List netmap_slot) (nm_i nm_j n : Nat),
    txs.length = lim + 1 → rxs.length = lim_peer + 1 →
    nm_i < txs.length → nm_j < rxs.length →
    (((veth_swap_loop head jlim lim lim_peer fuel txs rxs nm_i nm_j n).1 : Multiset netmap_slot)
        + ((veth_swap_loop head jlim lim lim_peer fuel txs rxs nm_i nm_j n).2.1 : Multiset netmap_slot)
        = (txs : Multiset netmap_slot) + (rxs : Multiset netmap_slot)) ∧
      (veth_swap_loop head jlim lim lim_peer fuel txs rxs nm_i nm_j n).1.length = lim + 1 ∧
      (veth_swap_loop head jlim lim lim_peer fuel txs rxs nm_i nm_j n).2.1.length = lim_peer + 1 := by
  induction fuel with
  | zero =>
    intro txs rxs nm_i nm_j n h1 h2 _ _
    exact ⟨rfl, h1, h2⟩
  | succ fuel ih =>
    intro txs rxs nm_i nm_j n h1 h2 hi hj
    simp only [veth_swap_loop]
    by_cases hc : nm_i = head ∨ nm_j = jlim
    · simp only [if_pos hc]
      exact ⟨trivial, h1, h2⟩
    · simp only [if_neg hc]
      have hlen1 : (txs.set nm_i (rxs.getD nm_j default)).length = lim + 1 := by
        simpa using h1
      have hlen2 : (rxs.set nm_j (txs.getD nm_i default)).length = lim_peer + 1 := by
        simpa using h2
      have hi' : nm_next nm_i lim < (txs.set nm_i (rxs.getD nm_j default)).length := by
        rw [hlen1]
        unfold nm_next
        split
        · omega
        · have : nm_i < lim + 1 := by omega
          omega
      have hj' : nm_next nm_j lim_peer < (rxs.set nm_j (txs.getD nm_i default)).length := by
        rw [hlen2]
        unfold nm_next
        split
        · omega
        · have : nm_j < lim_peer + 1 := by omega
          omega
      obtain ⟨hm, hl1, hl2⟩ := ih (txs.set nm_i (rxs.getD nm_j default))
        (rxs.set nm_j (txs.getD nm_i default))
        (nm_next nm_i lim) (nm_next nm_j lim_peer) (n + 1) hlen1 hlen2 hi' hj'
      refine ⟨?_, hl1, hl2⟩
      rw [hm]
      have e1 := multiset_coe_set txs nm_i (rxs.getD nm_j default) default hi
      have e2 := multiset_coe_set rxs nm_j (txs.getD nm_i default) default hj
      have : ((txs.set nm_i (rxs.getD nm_j default) : List netmap_slot) : Multiset netmap_slot)
            + ((rxs.set nm_j (txs.getD nm_i default) : List netmap_slot) : Multiset netmap_slot)
            + ({txs.getD nm_i default} + {rxs.getD nm_j default})
          = (txs : Multiset netmap_slot) + (rxs : Multiset netmap_slot)
            + ({txs.getD nm_i default} + {rxs.getD nm_j default}) := by
        calc ((txs.set nm_i (rxs.getD nm_j default) : List netmap_slot) : Multiset netmap_slot)
              + ((rxs.set nm_j (txs.getD nm_i default) : List netmap_slot) : Multiset netmap_slot)
              + ({txs.getD nm_i default} + {rxs.getD nm_j default})
            = (((txs.set nm_i (rxs.getD nm_j default) : List netmap_slot) : Multiset netmap_slot)
                + {txs.getD nm_i default})
              + (((rxs.set nm_j (txs.getD nm_i default) : List netmap_slot) : Multiset netmap_slot)
                + {rxs.getD nm_j default}) := by abel
          _ = ((txs : Multiset netmap_slot) + {rxs.getD nm_j default})
              + ((rxs : Multiset netmap_slot) + {txs.getD nm_i default}) := by
                rw [e1, e2]
          _ = (txs : Multiset netmap_slot) + (rxs : Multiset netmap_slot)
              + ({txs.getD nm_i default} + {rxs.getD nm_j default}) := by abel
      exact add_right_cancel this

theorem bufIdx_of_slot_multiset {l1 l2 l1' l2' : List netmap_slot}
    (h : (l1' : Multiset netmap_slot) + (l2' : Multiset netmap_slot)
        = (l1 : Multiset netmap_slot) + (l2 : Multiset netmap_slot)) :
    bufIdxMultiset l1' + bufIdxMultiset l2' = bufIdxMultiset l1 + bufIdxMultiset l2 := by
  have := congrArg (Multiset.map netmap_slot.buf_idx) h
  simpa [bufIdxMultiset, Multiset.map_coe] using this

/-- **C1.** For a cross-linked TX/RX kring pair with all ring indices in range
and the carrier up, `veth_netmap_txsync` only exchanges whole `netmap_slot`
records between the TX ring and the peer RX ring, so the multiset of
`buf_idx` values over the two slot arrays together is the same before and
after the call: no buffer index is created, duplicated or destroyed. -/
theorem veth_netmap_txsync_preserves_buf_multiset
    (txkring rxkring : VethKring)
    (htx : txkring.slot.length = txkring.nkr_num_slots)
    (hrx : rxkring.slot.length = rxkring.nkr_num_slots)
    (htx0 : 0 < txkring.nkr_num_slots)
    (hrx0 : 0 < rxkring.nkr_num_slots)
    (hcur : txkring.nr_hwcur < txkring.nkr_num_slots)
    (htail : rxkring.nr_hwtail < rxkring.nkr_num_slots) :
    let r := veth_netmap_txsync true txkring rxkring
    bufIdxMultiset r.1.slot + bufIdxMultiset r.2.1.slot
      = bufIdxMultiset txkring.slot + bufIdxMultiset rxkring.slot := by
  intro r
  show bufIdxMultiset (veth_netmap_txsync true txkring rxkring).1.slot
      + bufIdxMultiset (veth_netmap_txsync true txkring rxkring).2.1.slot
    = _
  unfold veth_netmap_txsync
  have hcond : ¬¬(true = true) := by simp
  simp only [if_neg hcond]
  by_cases hne : txkring.nr_hwcur ≠ txkring.rhead
  · simp only [if_pos hne]
    have hlen1 : txkring.slot.length = (txkring.nkr_num_slots - 1) + 1 := by omega
    have hlen2 : rxkring.slot.length = (rxkring.nkr_num_slots - 1) + 1 := by omega
    have hi : txkring.nr_hwcur < txkring.slot.length := by omega
    have hj : rxkring.nr_hwtail < rxkring.slot.length := by omega
    have := veth_swap_loop_multiset txkring.rhead
      (nm_prev rxkring.nr_hwcur (rxkring.nkr_num_slots - 1))
      (txkring.nkr_num_slots - 1) (rxkring.nkr_num_slots - 1)
      ((txkring.nkr_num_slots - 1) + 1)
      txkring.slot rxkring.slot txkring.nr_hwcur rxkring.nr_hwtail 0
      hlen1 hlen2 hi hj
    exact bufIdx_of_slot_multiset this.1
  · simp only [if_neg hne, ite_self]

/-- Witness for C1 at a concrete pair of 4-slot rings (the E3 scenario of the
spec): TX slots carry buffers 10,11,12,13, RX slots 20,21,22,23. -/
theorem veth_netmap_txsync_preserves_buf_multiset_witness :
    (let tx : VethKring :=
      { nkr_num_slots := 4, nr_hwcur := 0, nr_hwtail := 0, rhead := 4 % 4,
        slot := [⟨10, 0, 0⟩, ⟨11, 0, 0⟩, ⟨12, 0, 0⟩, ⟨13, 0, 0⟩] }
     let rx : VethKring :=
      { nkr_num_slots := 4, nr_hwcur := 0, nr_hwtail := 0, rhead := 0,
        slot := [⟨20, 0, 0⟩, ⟨21, 0, 0⟩, ⟨22, 0, 0⟩, ⟨23, 0, 0⟩] }
     tx.slot.length = tx.nkr_num_slots ∧
       let r := veth_netmap_txsync true tx rx
       bufIdxMultiset r.1.slot + bufIdxMultiset r.2.1.slot
         = bufIdxMultiset tx.slot + bufIdxMultiset rx.slot) := by
  refine ⟨by decide, ?_⟩
  exact veth_netmap_txsync_preserves_buf_multiset _ _
    (by decide) (by decide) (by decide) (by decide) (by decide) (by decide)

/-! ## Object pools (`struct netmap_obj_pool`, netmap_mem2.c) -/

/-- `struct netmap_obj_pool`.  The lookup table `lut` stores the virtual
address of each object (`none` models a NULL `vaddr`); `bitmap` is the array
of 32-bit words (`none` models a NULL pointer before allocation); every other
field matches the C structure.  Physical addresses (`paddr`) play no role in
the verified claims and are omitted. -/
structure netmap_obj_pool where
  objtotal : Nat
  memtotal : Nat
  numclusters : Nat
  objfree : Nat
  lut : List (Option Nat)
  bitmap : Option (List Nat)
  bitmap_slots : Nat
  objminsize : Nat
  objmaxsize : Nat
  nummin : Nat
  nummax : Nat
  _objtotal : Nat
  _objsize : Nat
  _clustsize : Nat
  _clustentries : Nat
  _numclusters : Nat
  r_objtotal : Nat
  r_objsize : Nat
  deriving DecidableEq, Repr

/-- 32-bit complement, for the C expression `~mask` on a `uint32_t`. -/
def u32_not (m : Nat) : Nat := (2 ^ 32 - 1) ^^^ m

/-- Helper for `lowBit`, structurally recursive on a fuel argument (the C
scan halves the word each step, so fuel `w` always suffices). -/
def lowBitAux : Nat → Nat → Nat
  | 0, _ => 0
  | fuel + 1, w => if w % 2 = 1 then 0 else 1 + lowBitAux fuel (w / 2)

/-- Index of the lowest set bit of a word: the C scan
`for (j = 0, mask = 1; (cur & mask) == 0; j++, mask <<= 1);` in
`netmap_obj_malloc` (meaningful only for `w ≠ 0`, as in the C code). -/
def lowBit (w : Nat) : Nat := lowBitAux w w

/-- The scan loop of `netmap_obj_malloc`:
`while (vaddr == NULL && i < p->bitmap_slots) { ... }`.  Returns the updated
bitmap, the final word index `i`, the updated `objfree`, and on success the
pair `(vaddr, index)`.  The fuel argument only serves termination: every
iteration either advances `i` or clears one bit of a 32-bit word, so
`33 * bitmap_slots + 1` steps always reach the loop's own exit. -/
def netmap_obj_malloc_loop (lut : List (Option Nat)) (slots : Nat) :
    Nat → List Nat → Nat → Nat → List Nat × Nat × Nat × Option (Nat × Nat)
  | 0, bm, i, objfree => (bm, i, objfree, none)
  | fuel + 1, bm, i, objfree =>
    if i < slots then
      let cur := bm.getD i 0
      if cur = 0 then
        netmap_obj_malloc_loop lut slots fuel bm (i + 1) objfree
      else
        let j := lowBit cur
        let bm' := bm.set i (cur &&& u32_not (1 <<< j))
        match lut.getD (i * 32 + j) none with
        | some v => (bm', i, objfree - 1, some (v, i * 32 + j))
        | none => netmap_obj_malloc_loop lut slots fuel bm' i (objfree - 1)
    else (bm, i, objfree, none)

/-- `netmap_obj_malloc(p, len, start, index)`.  Returns the updated pool, the
updated `*start` hint (when one was passed) and, on success,
`some (vaddr, index)`. -/
def netmap_obj_malloc (p : netmap_obj_pool) (len : Nat) (start : Option Nat) :
    netmap_obj_pool × Option Nat × Option (Nat × Nat) :=
  if p._objsize < len then (p, start, none)
  else if p.objfree = 0 then (p, start, none)
  else
    let i0 := start.getD 0
    let r := netmap_obj_malloc_loop p.lut p.bitmap_slots (33 * p.bitmap_slots + 1)
      (p.bitmap.getD []) i0 p.objfree
    ({ p with bitmap := some r.1, objfree := r.2.2.1 },
     start.map fun _ => r.2.1,
     r.2.2.2)

/-- `netmap_obj_free(p, j)`: free by index.  Returns the updated pool and
`true` on error (index out of range or double free), as the C returns 1. -/
def netmap_obj_free (p : netmap_obj_pool) (j : Nat) : netmap_obj_pool × Bool :=
  if p.objtotal ≤ j then (p, true)
  else
    let w := (p.bitmap.getD []).getD (j / 32) 0
    let mask := 1 <<< (j % 32)
    if w &&& mask ≠ 0 then (p, true)
    else
      ({ p with bitmap := some ((p.bitmap.getD []).set (j / 32) (w ||| mask)),
                objfree := p.objfree + 1 },
       false)

/-- `netmap_free_buf(nmd, i)`: the BUF-pool free path.  Rejects the reserved
indices (`i < 2`) and out-of-range indices, otherwise frees by index. -/
def netmap_free_buf (p : netmap_obj_pool) (i : Nat) : netmap_obj_pool :=
  if i < 2 ∨ p.objtotal ≤ i then p
  else (netmap_obj_free p i).1

/-- `netmap_free_bufs(nmd, slot, n)`: walks the slot array of a ring being
torn down and frees each buffer whose `buf_idx` is strictly greater than 2. -/
def netmap_free_bufs (p : netmap_obj_pool) (slots : List netmap_slot) :
    netmap_obj_pool :=
  slots.foldl
    (fun acc s => if 2 < s.buf_idx then netmap_free_buf acc s.buf_idx else acc) p

/-! ## Bitmap initialization -/

/-- `memset(ptr, 0, nbytes)` on an array of little-endian 32-bit words:
word `w` is fully zeroed when its four bytes lie below `nbytes`, partially
zeroed (low bytes first) when `nbytes` falls inside it.  This models the
byte count `p->bitmap_slots` that `netmap_init_obj_allocator_bitmap` passes
to `memset` (the C code zeroes `bitmap_slots` bytes, not words). -/
def memset_bytes_zero (b : List Nat) (nbytes : Nat) : List Nat :=
  b.mapIdx fun w x =>
    if (w + 1) * 4 ≤ nbytes then 0
    else if w * 4 < nbytes then
      (x >>> (8 * (nbytes - w * 4))) <<< (8 * (nbytes - w * 4))
    else x

/-- One step of the marking loop of `netmap_init_obj_allocator_bitmap`:
`if (p->lut[j].vaddr != NULL) { p->bitmap[j>>5] |= 1U << (j & 31U);
p->objfree++; }`.  The accumulator carries the bitmap and `objfree`. -/
def nm_mark_free_step (lut : List (Option Nat)) (acc : List Nat × Nat) (j : Nat) :
    List Nat × Nat :=
  match lut.getD j none with
  | some _ =>
      (acc.1.set (j >>> 5) ((acc.1.getD (j >>> 5) 0) ||| (1 <<< (j &&& 31))),
       acc.2 + 1)
  | none => acc

/-- `netmap_init_obj_allocator_bitmap(p)`.  Allocates (zero-filled, as
`nm_os_malloc` guarantees) or `memset`s the bitmap, marks one free bit per
non-NULL `lut` entry while counting `objfree`, and fails with `ENOMEM` when
no object is free.  Allocation failure of the bitmap itself is not modelled. -/
def netmap_init_obj_allocator_bitmap (p : netmap_obj_pool) :
    netmap_obj_pool × Nat :=
  let init : List Nat × Nat :=
    match p.bitmap with
    | none => (List.replicate ((p.objtotal + 31) / 32) 0, (p.objtotal + 31) / 32)
    | some bm => (memset_bytes_zero bm p.bitmap_slots, p.bitmap_slots)
  let marked := (List.range p.objtotal).foldl (nm_mark_free_step p.lut) (init.1, 0)
  let p' := { p with bitmap := some marked.1, bitmap_slots := init.2,
                     objfree := marked.2 }
  (p', if marked.2 = 0 then ENOMEM else 0)

/-! ## Memory domains (`struct netmap_mem_d`) -/

/-- `struct netmap_obj_params`: requested size/number per pool, plus the
last-seen values used by `netmap_mem_params_changed`. -/
structure netmap_obj_params where
  size : Nat
  num : Nat
  last_size : Nat
  last_num : Nat
  deriving DecidableEq, Repr

/-- `struct netmap_mem_d`, restricted to the fields the verified functions
touch.  `pools_if`, `pools_ring`, `pools_buf` are `pools[NETMAP_IF_POOL]`,
`pools[NETMAP_RING_POOL]`, `pools[NETMAP_BUF_POOL]`; `flags_finalized` is the
`NETMAP_MEM_FINALIZED` bit of `flags`. -/
structure netmap_mem_d where
  pools_if : netmap_obj_pool
  pools_ring : netmap_obj_pool
  pools_buf : netmap_obj_pool
  flags_finalized : Bool
  lasterr : Nat
  active : Nat
  nm_totalsize : Nat
  params_if : netmap_obj_params
  params_ring : netmap_obj_params
  params_buf : netmap_obj_params
  deriving DecidableEq, Repr

/-- `netmap_mem_init_bitmaps(nmd)`: init every pool's bitmap in order
(IF, RING, BUF), stopping at the first error; then reserve buffers 0 and 1:
require `objfree ≥ 2` on the BUF pool, subtract 2 from its `objfree` and
overwrite word 0 of its bitmap with `~3U` (= 2^32 - 4). -/
def netmap_mem_init_bitmaps (nmd : netmap_mem_d) : netmap_mem_d × Nat :=
  let rif := netmap_init_obj_allocator_bitmap nmd.pools_if
  if rif.2 ≠ 0 then ({ nmd with pools_if := rif.1 }, rif.2)
  else
    let rring := netmap_init_obj_allocator_bitmap nmd.pools_ring
    if rring.2 ≠ 0 then
      ({ nmd with pools_if := rif.1, pools_ring := rring.1 }, rring.2)
    else
      let rbuf := netmap_init_obj_allocator_bitmap nmd.pools_buf
      if rbuf.2 ≠ 0 then
        ({ nmd with pools_if := rif.1, pools_ring := rring.1,
                    pools_buf := rbuf.1 }, rbuf.2)
      else if rbuf.1.objfree < 2 then
        ({ nmd with pools_if := rif.1, pools_ring := rring.1,
                    pools_buf := rbuf.1 }, ENOMEM)
      else
        let pbuf := { rbuf.1 with
          objfree := rbuf.1.objfree - 2,
          bitmap := if rbuf.1.bitmap.isSome then
              some ((rbuf.1.bitmap.getD []).set 0 (2 ^ 32 - 4))
            else none }
        ({ nmd with pools_if := rif.1, pools_ring := rring.1,
                    pools_buf := pbuf }, 0)

/-! ## Bitmap helper lemmas -/

theorem getD_set_self (l : List Nat) (i x : Nat) (h : i < l.length) :
    (l.set i x).getD i 0 = x := by
  rw [List.getD_eq_getElem?_getD, List.getElem?_set_self h]
  rfl

theorem getD_set_ne (l : List Nat) (i k x : Nat) (h : i ≠ k) :
    (l.set i x).getD k 0 = l.getD k 0 := by
  rw [List.getD_eq_getElem?_getD, List.getElem?_set_ne h, ← List.getD_eq_getElem?_getD]

theorem words_lt_32_set {bm : List Nat} (i x : Nat)
    (hbm : ∀ k, bm.getD k 0 < 2 ^ 32) (hx : x < 2 ^ 32) :
    ∀ k, (bm.set i x).getD k 0 < 2 ^ 32 := by
  intro k
  by_cases hik : i = k
  · subst hik
    by_cases hlen : i < bm.length
    · rw [getD_set_self bm i x hlen]; exact hx
    · rw [List.set_eq_of_length_le (by omega)]
      exact hbm i
  · rw [getD_set_ne bm i k x hik]
    exact hbm k

theorem lowBitAux_testBit : ∀ fuel w : Nat, w ≠ 0 → w ≤ fuel →
    w.testBit (lowBitAux fuel w) = true := by
  intro fuel
  induction fuel with
  | zero => intro w h hle; omega
  | succ fuel ih =>
    intro w h hle
    rw [lowBitAux]
    by_cases hodd : w % 2 = 1
    · rw [if_pos hodd, Nat.testBit_zero]
      simp [hodd]
    · rw [if_neg hodd]
      have hdiv : w / 2 ≠ 0 := by omega
      rw [Nat.add_comm 1 (lowBitAux fuel (w / 2)), Nat.testBit_succ]
      exact ih (w / 2) hdiv (by omega)

theorem lowBit_testBit (w : Nat) (h : w ≠ 0) : w.testBit (lowBit w) = true :=
  lowBitAux_testBit w w h le_rfl

theorem two_pow_lowBit_le (w : Nat) (h : w ≠ 0) : 2 ^ lowBit w ≤ w :=
  Nat.testBit_implies_ge (lowBit_testBit w h)

theorem lowBit_lt_32 (w : Nat) (h : w ≠ 0) (hlt : w < 2 ^ 32) : lowBit w < 32 := by
  by_contra hge
  push_neg at hge
  have h1 : (2 : Nat) ^ 32 ≤ 2 ^ lowBit w := Nat.pow_le_pow_right (by norm_num) hge
  have h2 := two_pow_lowBit_le w h
  omega

theorem lowBitAux_min : ∀ fuel w b : Nat, w ≤ fuel → b < lowBitAux fuel w →
    w.testBit b = false := by
  intro fuel
  induction fuel with
  | zero => intro w b _ hb; simp [lowBitAux] at hb
  | succ fuel ih =>
    intro w b hle hb
    by_cases h : w = 0
    · subst h; simp
    · rw [lowBitAux] at hb
      by_cases hodd : w % 2 = 1
      · rw [if_pos hodd] at hb; omega
      · rw [if_neg hodd] at hb
        cases b with
        | zero => rw [Nat.testBit_zero]; simp [hodd]
        | succ b =>
          rw [Nat.testBit_succ]
          exact ih (w / 2) b (by omega) (by omega)

theorem lowBit_min (w b : Nat) (hb : b < lowBit w) : w.testBit b = false :=
  lowBitAux_min w w b le_rfl hb

/-- Clearing bits with `&=` never turns a bit on, through the whole malloc
scan loop. -/
theorem malloc_loop_testBit_mono (lut : List (Option Nat)) (slots : Nat) :
    ∀ (fuel : Nat) (bm : List Nat) (i objfree k b : Nat),
    ((netmap_obj_malloc_loop lut slots fuel bm i objfree).1.getD k 0).testBit b = true →
    (bm.getD k 0).testBit b = true := by
  intro fuel
  induction fuel with
  | zero => intro bm i objfree k b hb; exact hb
  | succ fuel ih =>
    intro bm i objfree k b hb
    rw [netmap_obj_malloc_loop] at hb
    by_cases hi : i < slots
    · rw [if_pos hi] at hb
      by_cases hcur : bm.getD i 0 = 0
      · rw [if_pos hcur] at hb
        exact ih bm (i + 1) objfree k b hb
      · rw [if_neg hcur] at hb
        set cur := bm.getD i 0 with hcurdef
        set j := lowBit cur with hjdef
        have hand : ∀ kk bb,
            (((bm.set i (cur &&& u32_not (1 <<< j))).getD kk 0)).testBit bb = true →
            (bm.getD kk 0).testBit bb = true := by
          intro kk bb hbb
          by_cases hik : i = kk
          · subst hik
            by_cases hlen : i < bm.length
            · rw [getD_set_self bm i _ hlen] at hbb
              rw [Nat.testBit_land] at hbb
              exact (Bool.and_eq_true_iff.mp hbb).1
            · rw [List.set_eq_of_length_le (by omega)] at hbb
              exact hbb
          · rw [getD_set_ne bm i kk _ hik] at hbb
            exact hbb
        cases hl : lut.getD (i * 32 + j) none with
        | some v =>
          simp only [hl] at hb
          exact hand k b hb
        | none =>
          simp only [hl] at hb
          exact hand k b (ih _ i (objfree - 1) k b hb)
    · rw [if_neg hi] at hb
      exact hb

/-- A successful malloc scan returns an index whose bit was set in the bitmap
the scan started from. -/
theorem malloc_loop_some_bit (lut : List (Option Nat)) (slots : Nat) :
    ∀ (fuel : Nat) (bm : List Nat) (i objfree v idx : Nat),
    (∀ k, bm.getD k 0 < 2 ^ 32) →
    (netmap_obj_malloc_loop lut slots fuel bm i objfree).2.2.2 = some (v, idx) →
    (bm.getD (idx / 32) 0).testBit (idx % 32) = true := by
  intro fuel
  induction fuel with
  | zero => intro bm i objfree v idx _ hr; simp [netmap_obj_malloc_loop] at hr
  | succ fuel ih =>
    intro bm i objfree v idx hw hr
    rw [netmap_obj_malloc_loop] at hr
    by_cases hi : i < slots
    · rw [if_pos hi] at hr
      by_cases hcur : bm.getD i 0 = 0
      · rw [if_pos hcur] at hr
        exact ih bm (i + 1) objfree v idx hw hr
      · rw [if_neg hcur] at hr
        set cur := bm.getD i 0 with hcurdef
        set j := lowBit cur with hjdef
        have hj32 : j < 32 := lowBit_lt_32 cur hcur (hw i)
        cases hl : lut.getD (i * 32 + j) none with
        | some v0 =>
          simp only [hl] at hr
          obtain ⟨hv, hidx⟩ := Prod.mk.injEq .. ▸ Option.some.injEq .. ▸ hr
          have hidxdiv : idx / 32 = i := by
            subst hidx; rw [Nat.mul_comm i 32, Nat.mul_add_div (by norm_num)]
            omega
          have hidxmod : idx % 32 = j := by
            subst hidx; rw [Nat.mul_comm i 32, Nat.mul_add_mod]
            exact Nat.mod_eq_of_lt hj32
          rw [hidxdiv, hidxmod]
          exact lowBit_testBit cur hcur
        | none =>
          simp only [hl] at hr
          have hw' : ∀ k, (bm.set i (cur &&& u32_not (1 <<< j))).getD k 0 < 2 ^ 32 := by
            apply words_lt_32_set _ _ hw
            exact lt_of_le_of_lt Nat.and_le_left (hw i)
          have hbit := ih _ i (objfree - 1) v idx hw' hr
          by_cases hik : i = idx / 32
          · rw [← hik] at hbit ⊢
            by_cases hlen : i < bm.length
            · rw [getD_set_self bm i _ hlen] at hbit
              rw [Nat.testBit_land] at hbit
              exact (Bool.and_eq_true_iff.mp hbit).1
            · rwa [List.set_eq_of_length_le (by omega)] at hbit
          · rwa [getD_set_ne bm i (idx / 32) _ hik] at hbit
    · rw [if_neg hi] at hr
      simp at hr

/-! ## Reserved buffers (claim C2) -/

/-- All bitmap words are genuine 32-bit values.  This holds vacuously for a
pool whose bitmap is unallocated (NULL reads as the empty list). -/
def words_lt_32 (p : netmap_obj_pool) : Prop :=
  ∀ k, (p.bitmap.getD []).getD k 0 < 2 ^ 32

/-- Buffer indices 0 and 1 are not marked free. -/
def reserved_not_free (p : netmap_obj_pool) : Prop :=
  ((p.bitmap.getD []).getD 0 0).testBit 0 = false ∧
  ((p.bitmap.getD []).getD 0 0).testBit 1 = false

/-- One operation of the BUF-pool usage protocol: an allocation
(`netmap_obj_malloc`, as wrapped by `netmap_buf_malloc`) or a free
(`netmap_free_buf`). -/
inductive BufOp where
  | alloc (len : Nat) (start : Option Nat)
  | free (i : Nat)
  deriving DecidableEq, Repr

/-- Run a sequence of BUF-pool operations, keeping only the pool state. -/
def runBufOps (p : netmap_obj_pool) : List BufOp → netmap_obj_pool
  | [] => p
  | BufOp.alloc len start :: rest => runBufOps (netmap_obj_malloc p len start).1 rest
  | BufOp.free i :: rest => runBufOps (netmap_free_buf p i) rest

theorem malloc_loop_words_lt (lut : List (Option Nat)) (slots : Nat) :
    ∀ (fuel : Nat) (bm : List Nat) (i objfree : Nat),
    (∀ k, bm.getD k 0 < 2 ^ 32) →
    ∀ k, (netmap_obj_malloc_loop lut slots fuel bm i objfree).1.getD k 0 < 2 ^ 32 := by
  intro fuel
  induction fuel with
  | zero => intro bm i objfree hw k; exact hw k
  | succ fuel ih =>
    intro bm i objfree hw k
    rw [netmap_obj_malloc_loop]
    by_cases hi : i < slots
    · rw [if_pos hi]
      by_cases hcur : bm.getD i 0 = 0
      · rw [if_pos hcur]; exact ih bm (i + 1) objfree hw k
      · rw [if_neg hcur]
        have hw' : ∀ kk, (bm.set i ((bm.getD i 0) &&& u32_not (1 <<< lowBit (bm.getD i 0)))).getD kk 0 < 2 ^ 32 :=
          words_lt_32_set _ _ hw (lt_of_le_of_lt Nat.and_le_left (hw i))
        cases hl : lut.getD (i * 32 + lowBit (bm.getD i 0)) none with
        | some v => simp only [hl]; exact hw' k
        | none => simp only [hl]; exact ih _ i (objfree - 1) hw' k
    · rw [if_neg hi]; exact hw k

theorem malloc_preserves_inv (p : netmap_obj_pool) (len : Nat) (start : Option Nat)
    (hw : words_lt_32 p) (hr : reserved_not_free p) :
    words_lt_32 (netmap_obj_malloc p len start).1 ∧
      reserved_not_free (netmap_obj_malloc p len start).1 := by
  unfold netmap_obj_malloc
  by_cases h1 : p._objsize < len
  · rw [if_pos h1]; exact ⟨hw, hr⟩
  · rw [if_neg h1]
    by_cases h2 : p.objfree = 0
    · rw [if_pos h2]; exact ⟨hw, hr⟩
    · rw [if_neg h2]
      refine ⟨?_, ?_, ?_⟩
      · intro k
        exact malloc_loop_words_lt p.lut p.bitmap_slots _ _ _ _ hw k
      · cases hb : (((netmap_obj_malloc_loop p.lut p.bitmap_slots
            (33 * p.bitmap_slots + 1) (p.bitmap.getD []) (start.getD 0)
            p.objfree).1.getD 0 0)).testBit 0 with
        | false => exact hb
        | true =>
          have := malloc_loop_testBit_mono p.lut p.bitmap_slots _ _ _ _ 0 0 hb
          rw [hr.1] at this
          exact absurd this (by simp)
      · cases hb : (((netmap_obj_malloc_loop p.lut p.bitmap_slots
            (33 * p.bitmap_slots + 1) (p.bitmap.getD []) (start.getD 0)
            p.objfree).1.getD 0 0)).testBit 1 with
        | false => exact hb
        | true =>
          have := malloc_loop_testBit_mono p.lut p.bitmap_slots _ _ _ _ 0 1 hb
          rw [hr.2] at this
          exact absurd this (by simp)

theorem free_buf_preserves_inv (p : netmap_obj_pool) (i : Nat)
    (hw : words_lt_32 p) (hr : reserved_not_free p) :
    words_lt_32 (netmap_free_buf p i) ∧ reserved_not_free (netmap_free_buf p i) := by
  unfold netmap_free_buf
  by_cases hrange : i < 2 ∨ p.objtotal ≤ i
  · rw [if_pos hrange]; exact ⟨hw, hr⟩
  · rw [if_neg hrange]
    push_neg at hrange
    unfold netmap_obj_free
    rw [if_neg (by omega)]
    by_cases hdf : ((p.bitmap.getD []).getD (i / 32) 0) &&& (1 <<< (i % 32)) ≠ 0
    · rw [if_pos hdf]; exact ⟨hw, hr⟩
    · rw [if_neg hdf]
      have hm32 : i % 32 < 32 := Nat.mod_lt _ (by norm_num)
      have hnew : ((p.bitmap.getD []).getD (i / 32) 0) ||| (1 <<< (i % 32)) < 2 ^ 32 := by
        apply Nat.or_lt_two_pow (hw (i / 32))
        rw [Nat.one_shiftLeft]
        exact Nat.pow_lt_pow_right (by norm_num) hm32
      constructor
      · intro k
        exact words_lt_32_set _ _ hw hnew k
      · by_cases h0 : i / 32 = 0
        · have hge : 2 ≤ i := hrange.1
          have hlt32 : i < 32 := by
            by_contra hcon
            push_neg at hcon
            have : 1 ≤ i / 32 := Nat.one_le_div_iff (by norm_num) |>.mpr hcon
            omega
          have him : i % 32 = i := Nat.mod_eq_of_lt hlt32
          by_cases hlen : 0 < (p.bitmap.getD []).length
          · have hset : ((p.bitmap.getD []).set (i / 32)
                (((p.bitmap.getD []).getD (i / 32) 0) ||| (1 <<< (i % 32)))).getD 0 0
                = ((p.bitmap.getD []).getD 0 0) ||| (1 <<< i) := by
              rw [h0, him]
              exact getD_set_self _ _ _ hlen
            constructor
            · show (((((p.bitmap.getD []).set (i / 32)
                  (((p.bitmap.getD []).getD (i / 32) 0) ||| (1 <<< (i % 32)))) :
                  List Nat).getD 0 0)).testBit 0 = false
              rw [hset, Nat.testBit_lor, Nat.one_shiftLeft, hr.1,
                Nat.testBit_two_pow_of_ne (by omega)]
              rfl
            · show (((((p.bitmap.getD []).set (i / 32)
                  (((p.bitmap.getD []).getD (i / 32) 0) ||| (1 <<< (i % 32)))) :
                  List Nat).getD 0 0)).testBit 1 = false
              rw [hset, Nat.testBit_lor, Nat.one_shiftLeft, hr.2,
                Nat.testBit_two_pow_of_ne (by omega)]
              rfl
          · have hempty : (p.bitmap.getD [] : List Nat) = [] :=
              List.length_eq_zero.mp (by omega)
            have hset : ((p.bitmap.getD []).set (i / 32)
                (((p.bitmap.getD []).getD (i / 32) 0) ||| (1 <<< (i % 32)))).getD 0 0
                = 0 := by
              rw [hempty]
              rfl
            constructor
            · show (((((p.bitmap.getD []).set (i / 32)
                  (((p.bitmap.getD []).getD (i / 32) 0) ||| (1 <<< (i % 32)))) :
                  List Nat).getD 0 0)).testBit 0 = false
              rw [hset]
              exact Nat.zero_testBit 0
            · show (((((p.bitmap.getD []).set (i / 32)
                  (((p.bitmap.getD []).getD (i / 32) 0) ||| (1 <<< (i % 32)))) :
                  List Nat).getD 0 0)).testBit 1 = false
              rw [hset]
              exact Nat.zero_testBit 1
        · have hset : ((p.bitmap.getD []).set (i / 32)
              (((p.bitmap.getD []).getD (i / 32) 0) ||| (1 <<< (i % 32)))).getD 0 0
              = (p.bitmap.getD []).getD 0 0 :=
            getD_set_ne _ _ _ _ h0
          constructor
          · show (((((p.bitmap.getD []).set (i / 32)
                (((p.bitmap.getD []).getD (i / 32) 0) ||| (1 <<< (i % 32)))) :
                List Nat).getD 0 0)).testBit 0 = false
            rw [hset]
            exact hr.1
          · show (((((p.bitmap.getD []).set (i / 32)
                (((p.bitmap.getD []).getD (i / 32) 0) ||| (1 <<< (i % 32)))) :
                List Nat).getD 0 0)).testBit 1 = false
            rw [hset]
            exact hr.2

theorem runBufOps_preserves_inv (ops : List BufOp) :
    ∀ p : netmap_obj_pool, words_lt_32 p → reserved_not_free p →
    words_lt_32 (runBufOps p ops) ∧ reserved_not_free (runBufOps p ops) := by
  induction ops with
  | nil => intro p hw hr; exact ⟨hw, hr⟩
  | cons op rest ih =>
    intro p hw hr
    cases op with
    | alloc len start =>
      obtain ⟨hw', hr'⟩ := malloc_preserves_inv p len start hw hr
      exact ih _ hw' hr'
    | free i =>
      obtain ⟨hw', hr'⟩ := free_buf_preserves_inv p i hw hr
      exact ih _ hw' hr'

theorem mark_free_words_lt (lut : List (Option Nat)) (l : List Nat) :
    ∀ (acc : List Nat × Nat), (∀ k, acc.1.getD k 0 < 2 ^ 32) →
    ∀ k, (l.foldl (nm_mark_free_step lut) acc).1.getD k 0 < 2 ^ 32 := by
  induction l with
  | nil => intro acc hacc k; exact hacc k
  | cons j rest ih =>
    intro acc hacc k
    rw [List.foldl_cons]
    apply ih
    unfold nm_mark_free_step
    cases lut.getD j none with
    | none => exact hacc
    | some v =>
      intro kk
      apply words_lt_32_set _ _ hacc
      apply Nat.or_lt_two_pow (hacc (j >>> 5))
      rw [Nat.one_shiftLeft]
      have : j &&& 31 < 32 := by
        have := Nat.and_le_right (n := j) (m := 31)
        omega
      exact Nat.pow_lt_pow_right (by norm_num) this

theorem memset_bytes_zero_getD_lt (bm : List Nat) (nbytes k : Nat)
    (h : ∀ k, bm.getD k 0 < 2 ^ 32) :
    (memset_bytes_zero bm nbytes).getD k 0 < 2 ^ 32 := by
  unfold memset_bytes_zero
  by_cases hk : k < bm.length
  · rw [List.getD_eq_getElem?_getD, List.getElem?_mapIdx,
      List.getElem?_eq_getElem hk, Option.map_some']
    simp only [Option.getD_some]
    have hbk : bm[k] < 2 ^ 32 := by
      have := h k
      rwa [List.getD_eq_getElem bm 0 hk] at this
    split
    · positivity
    · split
      · calc (bm[k] >>> (8 * (nbytes - k * 4))) <<< (8 * (nbytes - k * 4))
            ≤ bm[k] := by
              rw [Nat.shiftLeft_eq, Nat.shiftRight_eq_div_pow]
              exact Nat.div_mul_le_self _ _
          _ < 2 ^ 32 := hbk
      · exact hbk
  · rw [List.getD_eq_getElem?_getD, List.getElem?_mapIdx,
      List.getElem?_eq_none (by omega), Option.map_none']
    simp only [Option.getD_none]
    positivity

theorem replicate_zero_getD (n k : Nat) :
    ((List.replicate n (0 : Nat)).getD k 0) = 0 := by
  rw [List.getD_eq_getElem?_getD, List.getElem?_replicate]
  split <;> rfl

theorem init_bitmap_words_lt (p : netmap_obj_pool) (hw : words_lt_32 p) :
    words_lt_32 (netmap_init_obj_allocator_bitmap p).1 := by
  unfold netmap_init_obj_allocator_bitmap
  intro k
  apply mark_free_words_lt
  intro kk
  cases hb : p.bitmap with
  | none =>
    simp only
    rw [replicate_zero_getD]
    positivity
  | some bm =>
    simp only
    apply memset_bytes_zero_getD_lt
    intro j
    have := hw j
    rwa [hb] at this

theorem not3_testBit0 : (2 ^ 32 - 4 : Nat).testBit 0 = false := by
  rw [Nat.testBit_zero]
  norm_num

theorem not3_testBit1 : (2 ^ 32 - 4 : Nat).testBit 1 = false := by
  have : (1 : Nat) = Nat.succ 0 := rfl
  rw [this, Nat.testBit_succ, Nat.testBit_zero]
  norm_num

/-- On success, the domain-level bitmap initialization leaves the BUF pool
with 32-bit words and with bits 0 and 1 of word 0 clear. -/
theorem mem_init_bitmaps_buf_inv (nmd : netmap_mem_d)
    (hw : words_lt_32 nmd.pools_buf)
    (hok : (netmap_mem_init_bitmaps nmd).2 = 0) :
    words_lt_32 (netmap_mem_init_bitmaps nmd).1.pools_buf ∧
      reserved_not_free (netmap_mem_init_bitmaps nmd).1.pools_buf := by
  simp only [netmap_mem_init_bitmaps] at hok ⊢
  by_cases h1 : (netmap_init_obj_allocator_bitmap nmd.pools_if).2 ≠ 0
  · rw [if_pos h1] at hok
    exact absurd hok h1
  · rw [if_neg h1] at hok ⊢
    by_cases h2 : (netmap_init_obj_allocator_bitmap nmd.pools_ring).2 ≠ 0
    · rw [if_pos h2] at hok
      exact absurd hok h2
    · rw [if_neg h2] at hok ⊢
      by_cases h3 : (netmap_init_obj_allocator_bitmap nmd.pools_buf).2 ≠ 0
      · rw [if_pos h3] at hok
        exact absurd hok h3
      · rw [if_neg h3] at hok ⊢
        by_cases h4 : (netmap_init_obj_allocator_bitmap nmd.pools_buf).1.objfree < 2
        · rw [if_pos h4] at hok
          exact absurd hok (by simp [ENOMEM])
        · rw [if_neg h4] at hok ⊢
          have hsome : (netmap_init_obj_allocator_bitmap nmd.pools_buf).1.bitmap.isSome = true := by
            rfl
          have hwbuf : words_lt_32 (netmap_init_obj_allocator_bitmap nmd.pools_buf).1 :=
            init_bitmap_words_lt nmd.pools_buf hw
          rw [if_pos hsome]
          set bm := ((netmap_init_obj_allocator_bitmap nmd.pools_buf).1.bitmap.getD [] : List Nat)
            with hbm
          constructor
          · intro k
            show ((bm.set 0 (2 ^ 32 - 4)).getD k 0) < 2 ^ 32
            apply words_lt_32_set _ _ _ (by norm_num)
            intro kk
            exact hwbuf kk
          · by_cases hlen : 0 < bm.length
            · constructor
              · show (((bm.set 0 (2 ^ 32 - 4)).getD 0 0)).testBit 0 = false
                rw [getD_set_self _ _ _ hlen]
                exact not3_testBit0
              · show (((bm.set 0 (2 ^ 32 - 4)).getD 0 0)).testBit 1 = false
                rw [getD_set_self _ _ _ hlen]
                exact not3_testBit1
            · have hempty : bm = [] := List.length_eq_zero.mp (by omega)
              constructor
              · show (((bm.set 0 (2 ^ 32 - 4)).getD 0 0)).testBit 0 = false
                rw [hempty]
                exact Nat.zero_testBit 0
              · show (((bm.set 0 (2 ^ 32 - 4)).getD 0 0)).testBit 1 = false
                rw [hempty]
                exact Nat.zero_testBit 1

/-- **C2.** After the domain-level bitmap initialization and any sequence of
allocate (`netmap_obj_malloc`) and free (`netmap_free_buf`) operations on the
BUF pool, buffer indices 0 and 1 are never marked free in the bitmap, and an
allocation never returns index 0 or 1. -/
theorem buf_pool_reserved_indices (nmd : netmap_mem_d) (ops : List BufOp)
    (hw : words_lt_32 nmd.pools_buf)
    (hok : (netmap_mem_init_bitmaps nmd).2 = 0) :
    reserved_not_free (runBufOps (netmap_mem_init_bitmaps nmd).1.pools_buf ops) ∧
    (∀ (len : Nat) (start : Option Nat) (v idx : Nat),
      (netmap_obj_malloc (runBufOps (netmap_mem_init_bitmaps nmd).1.pools_buf ops)
          len start).2.2 = some (v, idx) →
      idx ≠ 0 ∧ idx ≠ 1) := by
  obtain ⟨hw0, hr0⟩ := mem_init_bitmaps_buf_inv nmd hw hok
  obtain ⟨hwp, hrp⟩ := runBufOps_preserves_inv ops _ hw0 hr0
  refine ⟨hrp, ?_⟩
  intro len start v idx hsome
  set p := runBufOps (netmap_mem_init_bitmaps nmd).1.pools_buf ops with hp
  have hbit : ((p.bitmap.getD []).getD (idx / 32) 0).testBit (idx % 32) = true := by
    unfold netmap_obj_malloc at hsome
    by_cases hl : p._objsize < len
    · rw [if_pos hl] at hsome
      simp at hsome
    · rw [if_neg hl] at hsome
      by_cases hz : p.objfree = 0
      · rw [if_pos hz] at hsome
        simp at hsome
      · rw [if_neg hz] at hsome
        exact malloc_loop_some_bit p.lut p.bitmap_slots _ _ _ _ v idx hwp hsome
  constructor
  · intro h0
    rw [h0, show (0 : Nat) / 32 = 0 by norm_num,
      show (0 : Nat) % 32 = 0 by norm_num, hrp.1] at hbit
    exact absurd hbit (by simp)
  · intro h1
    rw [h1, show (1 : Nat) / 32 = 0 by norm_num,
      show (1 : Nat) % 32 = 1 by norm_num, hrp.2] at hbit
    exact absurd hbit (by simp)

/-- Witness for C2: a BUF pool of 4 objects, all backed, after init-bitmap
and the sequence alloc-then-free. -/
theorem buf_pool_reserved_indices_witness :
    (let pool0 : netmap_obj_pool :=
      { objtotal := 4, memtotal := 8192, numclusters := 2, objfree := 0,
        lut := [some 1000, some 1050, some 1100, some 1150], bitmap := none,
        bitmap_slots := 0, objminsize := 64, objmaxsize := 65536,
        nummin := 4, nummax := 1000000, _objtotal := 4, _objsize := 2048,
        _clustsize := 4096, _clustentries := 2, _numclusters := 2,
        r_objtotal := 4, r_objsize := 2048 }
     let nmd : netmap_mem_d :=
      { pools_if := pool0, pools_ring := pool0, pools_buf := pool0,
        flags_finalized := false, lasterr := 0, active := 0, nm_totalsize := 0,
        params_if := ⟨0, 0, 0, 0⟩, params_ring := ⟨0, 0, 0, 0⟩,
        params_buf := ⟨0, 0, 0, 0⟩ }
     let ops : List BufOp := [BufOp.alloc 2048 none, BufOp.free 2]
     (netmap_mem_init_bitmaps nmd).2 = 0 ∧
       reserved_not_free (runBufOps (netmap_mem_init_bitmaps nmd).1.pools_buf ops)) := by
  refine ⟨by decide, ?_⟩
  refine (buf_pool_reserved_indices _ _ ?_ (by decide)).1
  intro k
  show (([] : List Nat).getD k 0) < 2 ^ 32
  rw [List.getD_nil]
  norm_num

/-! ## Ring teardown frees only buffers with index > 2 (claim C10) -/

theorem free_bufs_eq_foldl_filter (slots : List netmap_slot) :
    ∀ p : netmap_obj_pool,
    netmap_free_bufs p slots
      = ((slots.filter fun t => 2 < t.buf_idx).foldl
          (fun acc t => netmap_free_buf acc t.buf_idx) p) := by
  induction slots with
  | nil => intro p; rfl
  | cons s rest ih =>
    intro p
    rw [netmap_free_bufs, List.foldl_cons]
    by_cases hgt : 2 < s.buf_idx
    · rw [if_pos hgt, List.filter_cons_of_pos (by simpa using hgt), List.foldl_cons]
      exact ih (netmap_free_buf p s.buf_idx)
    · rw [if_neg hgt, List.filter_cons_of_neg (by simpa using hgt)]
      exact ih p

/-- **C10.** On ring teardown (`netmap_free_bufs`), a slot's buffer is
returned to the BUF pool only when `buf_idx > 2`: a slot holding exactly
index 2 is silently left allocated, even though `netmap_free_buf` itself
accepts any index in `[2, objtotal)` (freeing index 2 directly does
increment `objfree`). -/
theorem free_bufs_skips_index_two (p : netmap_obj_pool) (s : netmap_slot)
    (slots : List netmap_slot) (i : Nat)
    (hs : s.buf_idx = 2) (h2 : 2 ≤ i) (hlt : i < p.objtotal)
    (hbit : ((p.bitmap.getD []).getD (i / 32) 0) &&& (1 <<< (i % 32)) = 0) :
    netmap_free_bufs p [s] = p ∧
    (netmap_free_buf p i).objfree = p.objfree + 1 ∧
    netmap_free_bufs p slots
      = ((slots.filter fun t => 2 < t.buf_idx).foldl
          (fun acc t => netmap_free_buf acc t.buf_idx) p) := by
  refine ⟨?_, ?_, free_bufs_eq_foldl_filter slots p⟩
  · rw [netmap_free_bufs, List.foldl_cons, if_neg (by omega), List.foldl_nil]
  · rw [netmap_free_buf, if_neg (by omega), netmap_obj_free, if_neg (by omega),
      if_neg (by simpa using hbit)]

/-- Witness for C10: a 4-object pool with an empty word, a slot carrying
buffer 2 that teardown skips, and a direct free of index 2 that succeeds. -/
theorem free_bufs_skips_index_two_witness :
    (let p : netmap_obj_pool :=
      { objtotal := 4, memtotal := 8192, numclusters := 2, objfree := 0,
        lut := [some 1000, some 1050, some 1100, some 1150],
        bitmap := some [0], bitmap_slots := 1, objminsize := 64,
        objmaxsize := 65536, nummin := 4, nummax := 1000000, _objtotal := 4,
        _objsize := 2048, _clustsize := 4096, _clustentries := 2,
        _numclusters := 2, r_objtotal := 4, r_objsize := 2048 }
     netmap_free_bufs p [⟨2, 2048, 0⟩] = p ∧
       (netmap_free_buf p 2).objfree = p.objfree + 1) := by
  have h := free_bufs_skips_index_two
    { objtotal := 4, memtotal := 8192, numclusters := 2, objfree := 0,
      lut := [some 1000, some 1050, some 1100, some 1150],
      bitmap := some [0], bitmap_slots := 1, objminsize := 64,
      objmaxsize := 65536, nummin := 4, nummax := 1000000, _objtotal := 4,
      _objsize := 2048, _clustsize := 4096, _clustentries := 2,
      _numclusters := 2, r_objtotal := 4, r_objsize := 2048 }
    ⟨2, 2048, 0⟩ [] 2 (by decide) (by decide) (by decide) (by decide)
  exact ⟨h.1, h.2.1⟩

/-! ## Allocation returns the first set bit at or after the hint (claim C9) -/

theorem malloc_loop_first_bit (lut : List (Option Nat)) (slots : Nat) :
    ∀ (fuel i : Nat) (bm : List Nat) (objfree w v : Nat),
    i ≤ w → w < slots → bm.getD w 0 ≠ 0 →
    (∀ u, i ≤ u → u < w → bm.getD u 0 = 0) →
    lut.getD (w * 32 + lowBit (bm.getD w 0)) none = some v →
    slots ≤ fuel + i →
    netmap_obj_malloc_loop lut slots fuel bm i objfree =
      (bm.set w ((bm.getD w 0) &&& u32_not (1 <<< lowBit (bm.getD w 0))), w,
        objfree - 1, some (v, w * 32 + lowBit (bm.getD w 0))) := by
  intro fuel
  induction fuel with
  | zero =>
    intro i bm objfree w v hiw hws _ _ _ hfuel
    omega
  | succ fuel ih =>
    intro i bm objfree w v hiw hws hbw hzero hlut hfuel
    rw [netmap_obj_malloc_loop, if_pos (by omega)]
    by_cases hieq : i = w
    · subst hieq
      rw [if_neg hbw]
      simp only [hlut]
    · have hilt : i < w := by omega
      rw [if_pos (hzero i le_rfl hilt)]
      exact ih (i + 1) bm objfree w v (by omega) hws hbw
        (fun u hu1 hu2 => hzero u (by omega) hu2) hlut (by omega)

/-- **C9 (amended).** `netmap_obj_malloc` scans the bitmap from the word-index
hint: when a nonzero word exists at or after the hint (its lowest set bit
backed by a non-NULL lut entry), the allocation returns that object's vaddr
and index — the first set bit at or after the hint — clears the bit,
decrements `objfree` and advances the hint.  When `objfree == 0` it fails;
it also fails, leaving the pool unchanged, when every word at or after the
hint is zero, even though `objfree > 0` (the claim's unconditional success
for `objfree > 0` does not hold). -/
theorem netmap_obj_malloc_first_set_bit (p : netmap_obj_pool)
    (len : Nat) (start : Option Nat) (w v : Nat)
    (hlen : len ≤ p._objsize) (hfree : p.objfree ≠ 0)
    (hiw : start.getD 0 ≤ w) (hws : w < p.bitmap_slots)
    (hbw : (p.bitmap.getD []).getD w 0 ≠ 0)
    (hwlt : (p.bitmap.getD []).getD w 0 < 2 ^ 32)
    (hzero : ∀ u, start.getD 0 ≤ u → u < w → (p.bitmap.getD []).getD u 0 = 0)
    (hlut : p.lut.getD (w * 32 + lowBit ((p.bitmap.getD []).getD w 0)) none
        = some v) :
    (netmap_obj_malloc p len start).2.2
        = some (v, w * 32 + lowBit ((p.bitmap.getD []).getD w 0)) ∧
    (netmap_obj_malloc p len start).1.bitmap
        = some ((p.bitmap.getD []).set w
            (((p.bitmap.getD []).getD w 0) &&&
              u32_not (1 <<< lowBit ((p.bitmap.getD []).getD w 0)))) ∧
    (netmap_obj_malloc p len start).1.objfree = p.objfree - 1 ∧
    (netmap_obj_malloc p len start).2.1 = start.map (fun _ => w) ∧
    (∀ k, 32 * start.getD 0 ≤ k →
      k < w * 32 + lowBit ((p.bitmap.getD []).getD w 0) →
      ((p.bitmap.getD []).getD (k / 32) 0).testBit (k % 32) = false) ∧
    (∀ (q : netmap_obj_pool) (len' : Nat) (st : Option Nat), q.objfree = 0 →
      (netmap_obj_malloc q len' st).2.2 = none) := by
  have hloop := malloc_loop_first_bit p.lut p.bitmap_slots
    (33 * p.bitmap_slots + 1) (start.getD 0) (p.bitmap.getD []) p.objfree w v
    hiw hws hbw hzero hlut (by omega)
  have hmain : netmap_obj_malloc p len start =
      ({ p with
          bitmap := some ((p.bitmap.getD []).set w
            (((p.bitmap.getD []).getD w 0) &&&
              u32_not (1 <<< lowBit ((p.bitmap.getD []).getD w 0)))),
          objfree := p.objfree - 1 },
        start.map (fun _ => w),
        some (v, w * 32 + lowBit ((p.bitmap.getD []).getD w 0))) := by
    rw [netmap_obj_malloc, if_neg (by omega), if_neg hfree]
    simp only [hloop]
  refine ⟨by rw [hmain], by rw [hmain], by rw [hmain], by rw [hmain], ?_, ?_⟩
  · intro k hk1 hk2
    have hlow32 : lowBit ((p.bitmap.getD []).getD w 0) < 32 :=
      lowBit_lt_32 _ hbw hwlt
    by_cases hkw : k / 32 < w
    · rw [hzero (k / 32) (by omega) hkw]
      exact Nat.zero_testBit _
    · have hkeq : k / 32 = w := by omega
      have hkmod : k % 32 = k - 32 * w := by omega
      have hklt : k % 32 < lowBit ((p.bitmap.getD []).getD w 0) := by omega
      rw [hkeq]
      exact lowBit_min _ _ hklt
  · intro q len' st hq
    rw [netmap_obj_malloc]
    by_cases hl : q._objsize < len'
    · rw [if_pos hl]
    · rw [if_neg hl, if_pos hq]

/-- Witness for C9 (amended): a two-word bitmap with its only free object in
word 1 at bit 3, hint 0. -/
theorem netmap_obj_malloc_first_set_bit_witness :
    (let p : netmap_obj_pool :=
      { objtotal := 64, memtotal := 8192, numclusters := 1, objfree := 1,
        lut := List.replicate 64 (some 7000), bitmap := some [0, 8],
        bitmap_slots := 2, objminsize := 64, objmaxsize := 65536,
        nummin := 4, nummax := 1000000, _objtotal := 64, _objsize := 64,
        _clustsize := 4096, _clustentries := 64, _numclusters := 1,
        r_objtotal := 64, r_objsize := 64 }
     (netmap_obj_malloc p 64 (some 0)).2.2 = some (7000, 35) ∧
       (netmap_obj_malloc p 64 (some 0)).1.objfree = 0) := by
  have h := netmap_obj_malloc_first_set_bit
    { objtotal := 64, memtotal := 8192, numclusters := 1, objfree := 1,
      lut := List.replicate 64 (some 7000), bitmap := some [0, 8],
      bitmap_slots := 2, objminsize := 64, objmaxsize := 65536,
      nummin := 4, nummax := 1000000, _objtotal := 64, _objsize := 64,
      _clustsize := 4096, _clustentries := 64, _numclusters := 1,
      r_objtotal := 64, r_objsize := 64 }
    64 (some 0) 1 7000 (by decide) (by decide) (by decide) (by decide)
    (by decide) (by decide) (by decide) (by decide)
  exact ⟨h.1, h.2.2.1⟩

/-- Counterexample to C9 as stated: a pool with `objfree = 1 > 0` on which
allocation with hint word 1 fails (the only set bit lies in word 0, before
the hint), so allocate does not return "the first set bit" object. -/
theorem netmap_obj_malloc_hint_miss :
    (let p : netmap_obj_pool :=
      { objtotal := 1, memtotal := 4096, numclusters := 1, objfree := 1,
        lut := [some 5000], bitmap := some [1], bitmap_slots := 1,
        objminsize := 64, objmaxsize := 65536, nummin := 1, nummax := 1000000,
        _objtotal := 1, _objsize := 64, _clustsize := 4096,
        _clustentries := 64, _numclusters := 1, r_objtotal := 1,
        r_objsize := 64 }
     0 < p.objfree ∧ (netmap_obj_malloc p 64 (some 1)).2.2 = none) := by
  decide

/-! ## Bitmap-initialization characterization (claim C4) -/

theorem shiftRight5_eq (n : Nat) : n >>> 5 = n / 32 := by
  rw [Nat.shiftRight_eq_div_pow]

theorem and31_eq (n : Nat) : n &&& 31 = n % 32 := by
  have h31 : (31 : Nat) = 2 ^ 5 - 1 := by norm_num
  rw [h31, Nat.and_pow_two_sub_one_eq_mod]

theorem mark_free_length (lut : List (Option Nat)) :
    ∀ (n : Nat) (bm : List Nat) (cnt : Nat),
    ((List.range n).foldl (nm_mark_free_step lut) (bm, cnt)).1.length = bm.length := by
  intro n
  induction n with
  | zero => intro bm cnt; rfl
  | succ n ih =>
    intro bm cnt
    rw [List.range_succ, List.foldl_append, List.foldl_cons, List.foldl_nil,
      nm_mark_free_step]
    cases lut.getD n none with
    | none => exact ih bm cnt
    | some v =>
      simp only [List.length_set]
      exact ih bm cnt

theorem mark_free_count (lut : List (Option Nat)) :
    ∀ (n : Nat) (bm : List Nat) (cnt : Nat),
    ((List.range n).foldl (nm_mark_free_step lut) (bm, cnt)).2
      = cnt + ((List.range n).filter fun j => (lut.getD j none).isSome).length := by
  intro n
  induction n with
  | zero => intro bm cnt; rfl
  | succ n ih =>
    intro bm cnt
    rw [List.range_succ, List.foldl_append, List.foldl_cons, List.foldl_nil,
      List.filter_append, nm_mark_free_step]
    cases hl : lut.getD n none with
    | none =>
      simp only [List.filter_cons, hl, Option.isSome_none, Bool.false_eq_true,
        if_false, List.filter_nil, List.append_nil]
      exact ih bm cnt
    | some v =>
      simp only [List.filter_cons, hl, Option.isSome_some, if_true,
        List.filter_nil, List.length_append, List.length_cons, List.length_nil]
      rw [ih bm cnt]
      omega

theorem mark_free_testBit (lut : List (Option Nat)) :
    ∀ (n : Nat) (bm : List Nat) (cnt k b : Nat),
    ((((List.range n).foldl (nm_mark_free_step lut) (bm, cnt)).1.getD k 0).testBit b
        = true
      ↔ ((bm.getD k 0).testBit b = true ∨
          ∃ j, j < n ∧ (lut.getD j none).isSome = true ∧ j / 32 = k ∧
            j % 32 = b ∧ k < bm.length)) := by
  intro n
  induction n with
  | zero =>
    intro bm cnt k b
    simp only [List.range_zero, List.foldl_nil]
    constructor
    · intro h; exact Or.inl h
    · intro h
      rcases h with h | ⟨j, hj, _⟩
      · exact h
      · omega
  | succ n ih =>
    intro bm cnt k b
    rw [List.range_succ, List.foldl_append, List.foldl_cons, List.foldl_nil,
      nm_mark_free_step]
    have hlen := mark_free_length lut n bm cnt
    cases hl : lut.getD n none with
    | none =>
      rw [ih bm cnt k b]
      constructor
      · intro h
        rcases h with h | ⟨j, hj, hp, hd, hm, hk⟩
        · exact Or.inl h
        · exact Or.inr ⟨j, by omega, hp, hd, hm, hk⟩
      · intro h
        rcases h with h | ⟨j, hj, hp, hd, hm, hk⟩
        · exact Or.inl h
        · have hjn : j ≠ n := by
            intro he; subst he; rw [hl] at hp; simp at hp
          exact Or.inr ⟨j, by omega, hp, hd, hm, hk⟩
    | some v =>
      simp only [shiftRight5_eq, and31_eq]
      by_cases hk : n / 32 = k ∧ k < bm.length
      · obtain ⟨hdk, hklen⟩ := hk
        rw [hdk, getD_set_self _ _ _ (by rw [hlen]; exact hklen)]
        rw [Nat.testBit_lor, Nat.one_shiftLeft, Nat.testBit_two_pow]
        constructor
        · intro h
          rcases Bool.or_eq_true_iff.mp h with h | h
          · rcases (ih bm cnt k b).mp h with h | ⟨j, hj, hp, hd, hm, hkl⟩
            · exact Or.inl h
            · exact Or.inr ⟨j, by omega, hp, hd, hm, hkl⟩
          · have hb : n % 32 = b := of_decide_eq_true h
            exact Or.inr ⟨n, by omega, by rw [hl]; rfl, hdk, hb, hklen⟩
        · intro h
          apply Bool.or_eq_true_iff.mpr
          rcases h with h | ⟨j, hj, hp, hd, hm, hkl⟩
          · exact Or.inl ((ih bm cnt k b).mpr (Or.inl h))
          · by_cases hjn : j = n
            · subst hjn
              exact Or.inr (by rw [hm]; simp)
            · exact Or.inl ((ih bm cnt k b).mpr (Or.inr ⟨j, by omega, hp, hd, hm, hkl⟩))
      · have hset : ((((List.range n).foldl (nm_mark_free_step lut) (bm, cnt)).1.set
            (n / 32)
            ((((List.range n).foldl (nm_mark_free_step lut) (bm, cnt)).1.getD (n / 32) 0)
              ||| (1 <<< (n % 32)))).getD k 0)
            = ((List.range n).foldl (nm_mark_free_step lut) (bm, cnt)).1.getD k 0 := by
          by_cases hdk : n / 32 = k
          · have hklen : ¬k < bm.length := fun hc => hk ⟨hdk, hc⟩
            rw [List.set_eq_of_length_le]
            rw [hlen]
            omega
          · exact getD_set_ne _ _ _ _ hdk
        rw [hset, ih bm cnt k b]
        constructor
        · intro h
          rcases h with h | ⟨j, hj, hp, hd, hm, hkl⟩
          · exact Or.inl h
          · exact Or.inr ⟨j, by omega, hp, hd, hm, hkl⟩
        · intro h
          rcases h with h | ⟨j, hj, hp, hd, hm, hkl⟩
          · exact Or.inl h
          · have hjn : j ≠ n := by
              intro he; subst he; exact hk ⟨hd, hkl⟩
            exact Or.inr ⟨j, by omega, hp, hd, hm, hkl⟩

/-- Characterization of `netmap_init_obj_allocator_bitmap` on a pool whose
bitmap is not yet allocated: `⌈objtotal/32⌉` words, bit `i` set exactly when
`lut[i].vaddr != NULL`, and `objfree` counting the non-NULL entries. -/
theorem init_bitmap_fresh_spec (p : netmap_obj_pool) (hfresh : p.bitmap = none) :
    ((netmap_init_obj_allocator_bitmap p).1.bitmap.getD []).length
        = (p.objtotal + 31) / 32 ∧
    (netmap_init_obj_allocator_bitmap p).1.bitmap_slots = (p.objtotal + 31) / 32 ∧
    (∀ i, i < p.objtotal →
      ((((netmap_init_obj_allocator_bitmap p).1.bitmap.getD []).getD (i / 32) 0).testBit
          (i % 32))
        = (p.lut.getD i none).isSome) ∧
    (netmap_init_obj_allocator_bitmap p).1.objfree
      = ((List.range p.objtotal).filter fun j => (p.lut.getD j none).isSome).length := by
  simp only [netmap_init_obj_allocator_bitmap, hfresh]
  refine ⟨?_, trivial, ?_, ?_⟩
  · show ((List.range p.objtotal).foldl (nm_mark_free_step p.lut)
        ((List.replicate ((p.objtotal + 31) / 32) 0 : List Nat), 0)).1.length
      = (p.objtotal + 31) / 32
    rw [mark_free_length, List.length_replicate]
  · intro i hi
    have hchar := mark_free_testBit p.lut p.objtotal
      (List.replicate ((p.objtotal + 31) / 32) 0) 0 (i / 32) (i % 32)
    cases hp : (p.lut.getD i none).isSome with
    | true =>
      apply hchar.mpr
      refine Or.inr ⟨i, hi, hp, rfl, rfl, ?_⟩
      rw [List.length_replicate]
      omega
    | false =>
      cases hbit : ((((List.range p.objtotal).foldl (nm_mark_free_step p.lut)
          ((List.replicate ((p.objtotal + 31) / 32) 0 : List Nat), 0)).1.getD
          (i / 32) 0).testBit (i % 32)) with
      | false => exact hbit
      | true =>
        exfalso
        rcases hchar.mp hbit with h | ⟨j, hj, hjp, hjd, hjm, _⟩
        · rw [replicate_zero_getD] at h
          rw [Nat.zero_testBit] at h
          exact absurd h (by simp)
        · have hji : j = i := by omega
          rw [hji, hp] at hjp
          exact absurd hjp (by simp)
  · show ((List.range p.objtotal).foldl (nm_mark_free_step p.lut)
        ((List.replicate ((p.objtotal + 31) / 32) 0 : List Nat), 0)).2 = _
    rw [mark_free_count, Nat.zero_add]

/-- On success, the domain-level bitmap initialization leaves the BUF pool at
the pool-level result with `objfree` decremented by 2 and word 0 overwritten
with `~3U`. -/
theorem mem_init_bitmaps_buf_eq (nmd : netmap_mem_d)
    (hok : (netmap_mem_init_bitmaps nmd).2 = 0) :
    (netmap_mem_init_bitmaps nmd).1.pools_buf
      = { (netmap_init_obj_allocator_bitmap nmd.pools_buf).1 with
          objfree := (netmap_init_obj_allocator_bitmap nmd.pools_buf).1.objfree - 2,
          bitmap := some
            (((netmap_init_obj_allocator_bitmap nmd.pools_buf).1.bitmap.getD []).set 0
              (2 ^ 32 - 4)) } := by
  simp only [netmap_mem_init_bitmaps] at hok ⊢
  by_cases h1 : (netmap_init_obj_allocator_bitmap nmd.pools_if).2 ≠ 0
  · rw [if_pos h1] at hok
    exact absurd hok h1
  · rw [if_neg h1] at hok ⊢
    by_cases h2 : (netmap_init_obj_allocator_bitmap nmd.pools_ring).2 ≠ 0
    · rw [if_pos h2] at hok
      exact absurd hok h2
    · rw [if_neg h2] at hok ⊢
      by_cases h3 : (netmap_init_obj_allocator_bitmap nmd.pools_buf).2 ≠ 0
      · rw [if_pos h3] at hok
        exact absurd hok h3
      · rw [if_neg h3] at hok ⊢
        by_cases h4 : (netmap_init_obj_allocator_bitmap nmd.pools_buf).1.objfree < 2
        · rw [if_pos h4] at hok
          exact absurd hok (by simp [ENOMEM])
        · rw [if_neg h4]
          have hsome : (netmap_init_obj_allocator_bitmap nmd.pools_buf).1.bitmap.isSome
              = true := by rfl
          rw [if_pos hsome]

/-- When all three pool inits succeed but the BUF pool ends with fewer than
two free objects, the domain-level init fails with `ENOMEM`. -/
theorem mem_init_bitmaps_objfree_lt_2 (nmd : netmap_mem_d)
    (h1 : (netmap_init_obj_allocator_bitmap nmd.pools_if).2 = 0)
    (h2 : (netmap_init_obj_allocator_bitmap nmd.pools_ring).2 = 0)
    (h3 : (netmap_init_obj_allocator_bitmap nmd.pools_buf).2 = 0)
    (h4 : (netmap_init_obj_allocator_bitmap nmd.pools_buf).1.objfree < 2) :
    (netmap_mem_init_bitmaps nmd).2 = ENOMEM := by
  simp only [netmap_mem_init_bitmaps]
  rw [if_neg (by simpa using h1), if_neg (by simpa using h2),
    if_neg (by simpa using h3), if_pos h4]

theorem not3_testBit_mid (i : Nat) (h2 : 2 ≤ i) (h32 : i < 32) :
    (2 ^ 32 - 4 : Nat).testBit i = true := by
  have heq : (2 ^ 32 - 4 : Nat) = (2 ^ 30 - 1) <<< 2 := by
    rw [Nat.shiftLeft_eq]
    norm_num
  rw [heq, Nat.testBit_shiftLeft, Nat.testBit_two_pow_sub_one]
  simp only [ge_iff_le, Bool.and_eq_true, decide_eq_true_eq]
  omega

/-- **C4.** After init-bitmap on a fresh (finalized) pool, the bitmap has
`⌈objtotal/32⌉` words and bit `i` is set iff `lut[i].vaddr` is non-NULL.
After the domain-level initialization, the BUF pool additionally has bits 0
and 1 cleared (while bits `2 ≤ i < objtotal` remain set, the lut being fully
backed on a finalized pool), and the domain-level init fails with `ENOMEM`
whenever the BUF pool has `objfree < 2` before the reservation. -/
theorem init_bitmap_characterization (p : netmap_obj_pool)
    (nmd nmd' : netmap_mem_d)
    (hfresh : p.bitmap = none)
    (hbuf_fresh : nmd.pools_buf.bitmap = none)
    (hpresent : ∀ i, i < nmd.pools_buf.objtotal →
        (nmd.pools_buf.lut.getD i none).isSome = true)
    (hok : (netmap_mem_init_bitmaps nmd).2 = 0)
    (h1 : (netmap_init_obj_allocator_bitmap nmd'.pools_if).2 = 0)
    (h2 : (netmap_init_obj_allocator_bitmap nmd'.pools_ring).2 = 0)
    (h3 : (netmap_init_obj_allocator_bitmap nmd'.pools_buf).2 = 0)
    (h4 : (netmap_init_obj_allocator_bitmap nmd'.pools_buf).1.objfree < 2) :
    (((netmap_init_obj_allocator_bitmap p).1.bitmap.getD []).length
        = (p.objtotal + 31) / 32) ∧
    ((netmap_init_obj_allocator_bitmap p).1.bitmap_slots = (p.objtotal + 31) / 32) ∧
    (∀ i, i < p.objtotal →
      ((((netmap_init_obj_allocator_bitmap p).1.bitmap.getD []).getD (i / 32) 0).testBit
          (i % 32))
        = (p.lut.getD i none).isSome) ∧
    reserved_not_free (netmap_mem_init_bitmaps nmd).1.pools_buf ∧
    (∀ i, 2 ≤ i → i < nmd.pools_buf.objtotal →
      ((((netmap_mem_init_bitmaps nmd).1.pools_buf.bitmap.getD []).getD (i / 32) 0).testBit
          (i % 32)) = true) ∧
    (netmap_mem_init_bitmaps nmd').2 = ENOMEM := by
  obtain ⟨hl1, hl2, hl3, _⟩ := init_bitmap_fresh_spec p hfresh
  have hwbuf : words_lt_32 nmd.pools_buf := by
    intro k
    rw [hbuf_fresh]
    show (([] : List Nat).getD k 0) < 2 ^ 32
    rw [List.getD_nil]
    norm_num
  obtain ⟨_, hres⟩ := mem_init_bitmaps_buf_inv nmd hwbuf hok
  refine ⟨hl1, hl2, hl3, hres, ?_, mem_init_bitmaps_objfree_lt_2 nmd' h1 h2 h3 h4⟩
  intro i h2i hio
  obtain ⟨hb1, _, hb3, _⟩ := init_bitmap_fresh_spec nmd.pools_buf hbuf_fresh
  rw [mem_init_bitmaps_buf_eq nmd hok]
  show ((((((netmap_init_obj_allocator_bitmap nmd.pools_buf).1.bitmap.getD []).set 0
      (2 ^ 32 - 4)) : List Nat).getD (i / 32) 0).testBit (i % 32)) = true
  by_cases h32 : i < 32
  · have hd0 : i / 32 = 0 := by omega
    have hm : i % 32 = i := Nat.mod_eq_of_lt h32
    have hlen : 0 < ((netmap_init_obj_allocator_bitmap nmd.pools_buf).1.bitmap.getD []).length := by
      rw [hb1]
      omega
    rw [hd0, hm, getD_set_self _ _ _ hlen]
    exact not3_testBit_mid i h2i h32
  · have hd0 : i / 32 ≠ 0 := by
      intro hc
      have : i < 32 := by omega
      omega
    rw [getD_set_ne _ _ _ _ (by omega)]
    rw [hb3 i hio]
    exact hpresent i hio

/-- Witness for C4 at concrete pools: a fresh 4-object pool, a domain whose
BUF pool is fully backed, and a domain whose BUF pool has a single backed
object (`objfree = 1 < 2`), which makes the domain-level init fail. -/
theorem init_bitmap_characterization_witness :
    (let mk : List (Option Nat) → netmap_obj_pool := fun l =>
      { objtotal := 4, memtotal := 8192, numclusters := 2, objfree := 0,
        lut := l, bitmap := none, bitmap_slots := 0, objminsize := 64,
        objmaxsize := 65536, nummin := 4, nummax := 1000000, _objtotal := 4,
        _objsize := 2048, _clustsize := 4096, _clustentries := 2,
        _numclusters := 2, r_objtotal := 4, r_objsize := 2048 }
     let full := mk [some 1000, some 1050, some 1100, some 1150]
     let scarce := mk [some 1000, none, none, none]
     let dom : netmap_obj_pool → netmap_mem_d := fun pb =>
      { pools_if := full, pools_ring := full, pools_buf := pb,
        flags_finalized := false, lasterr := 0, active := 0, nm_totalsize := 0,
        params_if := ⟨0, 0, 0, 0⟩, params_ring := ⟨0, 0, 0, 0⟩,
        params_buf := ⟨0, 0, 0, 0⟩ }
     (netmap_mem_init_bitmaps (dom full)).2 = 0 ∧
       reserved_not_free (netmap_mem_init_bitmaps (dom full)).1.pools_buf ∧
       (netmap_mem_init_bitmaps (dom scarce)).2 = ENOMEM) := by
  intro mk full scarce dom
  have h := init_bitmap_characterization full (dom full) (dom scarce)
    (by decide) (by decide) (by decide) (by decide) (by decide) (by decide)
    (by decide) (by decide)
  exact ⟨by decide, h.2.2.2.1, h.2.2.2.2.2⟩

/-! ## Pool configuration (claim C5) -/

/-- The cache-line rounding at the top of `netmap_config_obj_allocator`:
`i = objsize & (LINE_ROUND - 1); if (i) objsize += LINE_ROUND - i;`. -/
def nm_round_objsize (objsize : Nat) : Nat :=
  if objsize &&& (LINE_ROUND - 1) ≠ 0 then
    objsize + (LINE_ROUND - (objsize &&& (LINE_ROUND - 1)))
  else objsize

/-- The brute-force cluster-entries search of `netmap_config_obj_allocator`:
`for (clustentries = 0, i = 1;; i++) { used = i * objsize;
if (used > MAX_CLUSTSIZE) break; delta = used % PAGE_SIZE;
if (delta == 0) { clustentries = i; break; } }`.  Fuel-structural; fuel
`MAX_CLUSTSIZE + 2` always reaches one of the two breaks. -/
def clustentries_search (objsize : Nat) : Nat → Nat → Nat
  | 0, _ => 0
  | fuel + 1, i =>
    if MAX_CLUSTSIZE < i * objsize then 0
    else if (i * objsize) % PAGE_SIZE = 0 then i
    else clustentries_search objsize fuel (i + 1)

/-- `netmap_config_obj_allocator(p, objtotal, objsize)`. -/
def netmap_config_obj_allocator (p : netmap_obj_pool) (objtotal objsize : Nat) :
    netmap_obj_pool × Nat :=
  let p0 := { p with r_objtotal := objtotal, r_objsize := objsize }
  if MAX_CLUSTSIZE ≤ objsize then (p0, EINVAL)
  else
    let objsize' := nm_round_objsize objsize
    if objsize' < p.objminsize ∨ p.objmaxsize < objsize' then (p0, EINVAL)
    else if objtotal < p.nummin ∨ p.nummax < objtotal then (p0, EINVAL)
    else
      let clustentries := clustentries_search objsize' (MAX_CLUSTSIZE + 2) 1
      if clustentries = 0 then (p0, EINVAL)
      else
        ({ p0 with
            _clustentries := clustentries,
            _clustsize := clustentries * objsize',
            _numclusters := (objtotal + clustentries - 1) / clustentries,
            _objsize := objsize',
            _objtotal :=
              ((objtotal + clustentries - 1) / clustentries) * clustentries },
          0)

theorem MAX_CLUSTSIZE_eq : MAX_CLUSTSIZE = 4194304 := by decide

theorem and63_eq (n : Nat) : n &&& (LINE_ROUND - 1) = n % 64 := by
  have h : (LINE_ROUND - 1 : Nat) = 2 ^ 6 - 1 := by decide
  rw [h, Nat.and_pow_two_sub_one_eq_mod]

theorem nm_round_objsize_spec (objsize : Nat) :
    (nm_round_objsize objsize) % LINE_ROUND = 0 ∧
    objsize ≤ nm_round_objsize objsize ∧
    nm_round_objsize objsize < objsize + LINE_ROUND := by
  rw [nm_round_objsize, and63_eq]
  unfold LINE_ROUND
  by_cases h : objsize % 64 ≠ 0
  · rw [if_pos h]
    omega
  · rw [if_neg h]
    omega

theorem clustentries_search_spec (objsize : Nat) (hobj : 0 < objsize) :
    ∀ (fuel i : Nat), 0 < i → MAX_CLUSTSIZE + 2 ≤ fuel + i →
    ((clustentries_search objsize fuel i = 0 →
        ∀ k, i ≤ k → k * objsize ≤ MAX_CLUSTSIZE → (k * objsize) % PAGE_SIZE ≠ 0) ∧
     (clustentries_search objsize fuel i ≠ 0 →
        i ≤ clustentries_search objsize fuel i ∧
        (clustentries_search objsize fuel i * objsize) % PAGE_SIZE = 0 ∧
        clustentries_search objsize fuel i * objsize ≤ MAX_CLUSTSIZE ∧
        ∀ k, i ≤ k → k < clustentries_search objsize fuel i →
          (k * objsize) % PAGE_SIZE ≠ 0)) := by
  intro fuel
  induction fuel with
  | zero =>
    intro i hi hfuel
    constructor
    · intro _ k hk hkmax
      have : MAX_CLUSTSIZE + 2 ≤ k := by omega
      have : k ≤ k * objsize := Nat.le_mul_of_pos_right k hobj
      omega
    · intro h
      exact absurd rfl h
  | succ fuel ih =>
    intro i hi hfuel
    rw [clustentries_search]
    by_cases hbig : MAX_CLUSTSIZE < i * objsize
    · rw [if_pos hbig]
      constructor
      · intro _ k hk hkmax
        have : i * objsize ≤ k * objsize := Nat.mul_le_mul_right objsize hk
        omega
      · intro h
        exact absurd rfl h
    · rw [if_neg hbig]
      by_cases hpage : (i * objsize) % PAGE_SIZE = 0
      · rw [if_pos hpage]
        constructor
        · intro h
          omega
        · intro _
          exact ⟨le_rfl, hpage, by omega, fun k hk1 hk2 => by omega⟩
      · rw [if_neg hpage]
        obtain ⟨ihz, ihnz⟩ := ih (i + 1) (by omega) (by omega)
        constructor
        · intro h k hk hkmax
          by_cases hki : k = i
          · subst hki
            exact hpage
          · exact ihz h k (by omega) hkmax
        · intro h
          obtain ⟨hle, hpg, hmx, hmin⟩ := ihnz h
          refine ⟨by omega, hpg, hmx, ?_⟩
          intro k hk1 hk2
          by_cases hki : k = i
          · subst hki
            exact hpage
          · exact hmin k (by omega) hk2

/-- **C5.** Configure rounds `objsize` up to a cache-line multiple, fails with
`EINVAL` when the rounded `objsize` lies outside `[objminsize, objmaxsize]`
or `objtotal` outside `[nummin, nummax]`, and otherwise sets `_clustentries`
to the smallest `i ≥ 1` with `i*objsize` a page multiple and at most 4 MiB
(failing with `EINVAL` when no such `i` exists), `_clustsize =
_clustentries*objsize`, `_numclusters = ⌈objtotal/_clustentries⌉` and
`_objtotal = _numclusters*_clustentries`. -/
theorem netmap_config_obj_allocator_spec (p : netmap_obj_pool)
    (objtotal objsize : Nat)
    (hmin : 0 < p.objminsize) (hmax : p.objmaxsize < MAX_CLUSTSIZE) :
    ((nm_round_objsize objsize) % LINE_ROUND = 0 ∧
      objsize ≤ nm_round_objsize objsize ∧
      nm_round_objsize objsize < objsize + LINE_ROUND) ∧
    ((nm_round_objsize objsize < p.objminsize ∨
        p.objmaxsize < nm_round_objsize objsize ∨
        objtotal < p.nummin ∨ p.nummax < objtotal) →
      (netmap_config_obj_allocator p objtotal objsize).2 = EINVAL) ∧
    (p.objminsize ≤ nm_round_objsize objsize →
     nm_round_objsize objsize ≤ p.objmaxsize →
     p.nummin ≤ objtotal → objtotal ≤ p.nummax →
      (((netmap_config_obj_allocator p objtotal objsize).2 = 0 ↔
          ∃ ce, 0 < ce ∧ (ce * nm_round_objsize objsize) % PAGE_SIZE = 0 ∧
            ce * nm_round_objsize objsize ≤ MAX_CLUSTSIZE) ∧
       ((netmap_config_obj_allocator p objtotal objsize).2 ≠ 0 →
          (netmap_config_obj_allocator p objtotal objsize).2 = EINVAL) ∧
       ((netmap_config_obj_allocator p objtotal objsize).2 = 0 →
        0 < (netmap_config_obj_allocator p objtotal objsize).1._clustentries ∧
        ((netmap_config_obj_allocator p objtotal objsize).1._clustentries *
            nm_round_objsize objsize) % PAGE_SIZE = 0 ∧
        (netmap_config_obj_allocator p objtotal objsize).1._clustentries *
            nm_round_objsize objsize ≤ MAX_CLUSTSIZE ∧
        (∀ k, 0 < k →
          k < (netmap_config_obj_allocator p objtotal objsize).1._clustentries →
          (k * nm_round_objsize objsize) % PAGE_SIZE ≠ 0) ∧
        (netmap_config_obj_allocator p objtotal objsize).1._objsize
          = nm_round_objsize objsize ∧
        (netmap_config_obj_allocator p objtotal objsize).1._clustsize
          = (netmap_config_obj_allocator p objtotal objsize).1._clustentries *
            nm_round_objsize objsize ∧
        (netmap_config_obj_allocator p objtotal objsize).1._numclusters
          = (objtotal + (netmap_config_obj_allocator p objtotal objsize).1._clustentries - 1)
            / (netmap_config_obj_allocator p objtotal objsize).1._clustentries ∧
        (netmap_config_obj_allocator p objtotal objsize).1._objtotal
          = (netmap_config_obj_allocator p objtotal objsize).1._numclusters *
            (netmap_config_obj_allocator p objtotal objsize).1._clustentries))) := by
  obtain ⟨hr1, hr2, hr3⟩ := nm_round_objsize_spec objsize
  refine ⟨⟨hr1, hr2, hr3⟩, ?_, ?_⟩
  · intro hout
    rw [netmap_config_obj_allocator]
    by_cases hbig : MAX_CLUSTSIZE ≤ objsize
    · rw [if_pos hbig]
    · rw [if_neg hbig]
      by_cases hso : nm_round_objsize objsize < p.objminsize ∨
          p.objmaxsize < nm_round_objsize objsize
      · rw [if_pos hso]
      · rw [if_neg hso]
        have hto : objtotal < p.nummin ∨ p.nummax < objtotal := by
          rcases hout with h | h | h | h
          · exact absurd (Or.inl h) hso
          · exact absurd (Or.inr h) hso
          · exact Or.inl h
          · exact Or.inr h
        rw [if_pos hto]
  · intro hin1 hin2 hin3 hin4
    have hbig : ¬MAX_CLUSTSIZE ≤ objsize := by omega
    have hpos : 0 < nm_round_objsize objsize := by omega
    have hspec := clustentries_search_spec (nm_round_objsize objsize) hpos
      (MAX_CLUSTSIZE + 2) 1 (by omega) (by omega)
    rw [netmap_config_obj_allocator, if_neg hbig,
      if_neg (by omega), if_neg (by omega)]
    by_cases hce : clustentries_search (nm_round_objsize objsize)
        (MAX_CLUSTSIZE + 2) 1 = 0
    · rw [if_pos hce]
      refine ⟨?_, fun _ => rfl, ?_⟩
      · constructor
        · intro h
          exact absurd h (by simp [EINVAL])
        · intro ⟨ce, hce1, hce2, hce3⟩
          exact absurd hce2 (hspec.1 hce ce (by omega) hce3)
      · intro h
        exact absurd h (by simp [EINVAL])
    · rw [if_neg hce]
      obtain ⟨hle, hpg, hmx, hminimal⟩ := hspec.2 hce
      refine ⟨?_, ?_, ?_⟩
      · constructor
        · intro _
          exact ⟨clustentries_search (nm_round_objsize objsize) (MAX_CLUSTSIZE + 2) 1,
            by omega, hpg, hmx⟩
        · intro _
          rfl
      · intro h
        exact absurd rfl h
      · intro _
        exact ⟨(show 0 < clustentries_search (nm_round_objsize objsize)
            (MAX_CLUSTSIZE + 2) 1 by omega), hpg, hmx,
          fun k hk1 hk2 => hminimal k (by omega) hk2, rfl, rfl, rfl, rfl⟩

/-- Witness for C5 at the BUF pool's default configuration
(`objtotal = 163840`, `objsize = 2048`). -/
theorem netmap_config_obj_allocator_spec_witness :
    (let p : netmap_obj_pool :=
      { objtotal := 0, memtotal := 0, numclusters := 0, objfree := 0,
        lut := [], bitmap := none, bitmap_slots := 0, objminsize := 64,
        objmaxsize := 65536, nummin := 4, nummax := 1000000, _objtotal := 0,
        _objsize := 0, _clustsize := 0, _clustentries := 0, _numclusters := 0,
        r_objtotal := 0, r_objsize := 0 }
     0 < p.objminsize ∧
       ((netmap_config_obj_allocator p 163840 2048).2 = 0 →
        0 < (netmap_config_obj_allocator p 163840 2048).1._clustentries)) := by
  refine ⟨by decide, ?_⟩
  intro h
  exact (((netmap_config_obj_allocator_spec _ 163840 2048 (by decide)
    (by decide)).2.2 (by decide) (by decide) (by decide) (by decide)).2.2 h).1

/-! ## Domain reconfiguration (claim C8) -/

/-- `netmap_reset_obj_allocator(p)`: free clusters, lut and bitmap, clear the
derived counters.  (`bitmap_slots` is not cleared by the C code either.) -/
def netmap_reset_obj_allocator (p : netmap_obj_pool) : netmap_obj_pool :=
  { p with bitmap := none, lut := [], objtotal := 0, memtotal := 0,
           numclusters := 0, objfree := 0 }

/-- One pool's step of `netmap_mem_params_changed`: compare and update the
`last_size`/`last_num` cache. -/
def nm_params_changed_one (q : netmap_obj_params) : netmap_obj_params × Bool :=
  if q.last_size ≠ q.size ∨ q.last_num ≠ q.num then
    ({ q with last_size := q.size, last_num := q.num }, true)
  else (q, false)

/-- `netmap_mem_params_changed(p[])` over the three pools. -/
def netmap_mem_params_changed (a b c : netmap_obj_params) :
    (netmap_obj_params × netmap_obj_params × netmap_obj_params) × Bool :=
  (((nm_params_changed_one a).1, (nm_params_changed_one b).1,
    (nm_params_changed_one c).1),
   (nm_params_changed_one a).2 || (nm_params_changed_one b).2 ||
    (nm_params_changed_one c).2)

/-- `netmap_mem2_config(nmd)`: when the domain is in active use or the params
are unchanged, return `lasterr` without touching the pools; otherwise reset
a finalized domain, reconfigure every pool and cache the first error in
`lasterr`. -/
def netmap_mem2_config (nmd : netmap_mem_d) : netmap_mem_d × Nat :=
  if nmd.active ≠ 0 then (nmd, nmd.lasterr)
  else
    let pc := netmap_mem_params_changed nmd.params_if nmd.params_ring nmd.params_buf
    let nmd1 := { nmd with params_if := pc.1.1, params_ring := pc.1.2.1,
                           params_buf := pc.1.2.2 }
    if pc.2 = false then (nmd1, nmd1.lasterr)
    else
      let nmd2 :=
        if nmd1.flags_finalized then
          { nmd1 with pools_if := netmap_reset_obj_allocator nmd1.pools_if,
                      pools_ring := netmap_reset_obj_allocator nmd1.pools_ring,
                      pools_buf := netmap_reset_obj_allocator nmd1.pools_buf,
                      flags_finalized := false }
        else nmd1
      let rif := netmap_config_obj_allocator nmd2.pools_if
        nmd2.params_if.num nmd2.params_if.size
      if rif.2 ≠ 0 then
        ({ nmd2 with pools_if := rif.1, lasterr := rif.2 }, rif.2)
      else
        let rring := netmap_config_obj_allocator nmd2.pools_ring
          nmd2.params_ring.num nmd2.params_ring.size
        if rring.2 ≠ 0 then
          ({ nmd2 with pools_if := rif.1, pools_ring := rring.1,
                       lasterr := rring.2 }, rring.2)
        else
          let rbuf := netmap_config_obj_allocator nmd2.pools_buf
            nmd2.params_buf.num nmd2.params_buf.size
          if rbuf.2 ≠ 0 then
            ({ nmd2 with pools_if := rif.1, pools_ring := rring.1,
                         pools_buf := rbuf.1, lasterr := rbuf.2 }, rbuf.2)
          else
            ({ nmd2 with pools_if := rif.1, pools_ring := rring.1,
                         pools_buf := rbuf.1, lasterr := 0 }, 0)

/-- **C8.** While the domain has active users, `netmap_mem2_config` returns
the last error and modifies nothing: in particular `_objsize` and
`_objtotal` of all three pools are untouched, even when the params changed. -/
theorem netmap_mem2_config_active_locked (nmd : netmap_mem_d)
    (h : 0 < nmd.active) :
    (netmap_mem2_config nmd).1 = nmd ∧
    (netmap_mem2_config nmd).2 = nmd.lasterr ∧
    (netmap_mem2_config nmd).1.pools_if._objsize = nmd.pools_if._objsize ∧
    (netmap_mem2_config nmd).1.pools_if._objtotal = nmd.pools_if._objtotal ∧
    (netmap_mem2_config nmd).1.pools_ring._objsize = nmd.pools_ring._objsize ∧
    (netmap_mem2_config nmd).1.pools_ring._objtotal = nmd.pools_ring._objtotal ∧
    (netmap_mem2_config nmd).1.pools_buf._objsize = nmd.pools_buf._objsize ∧
    (netmap_mem2_config nmd).1.pools_buf._objtotal = nmd.pools_buf._objtotal := by
  have heq : netmap_mem2_config nmd = (nmd, nmd.lasterr) := by
    rw [netmap_mem2_config, if_pos (by omega)]
  rw [heq]
  exact ⟨rfl, rfl, rfl, rfl, rfl, rfl, rfl, rfl⟩

/-- Witness for C8: a domain with one active user and changed params is
returned unchanged. -/
theorem netmap_mem2_config_active_locked_witness :
    (let pool0 : netmap_obj_pool :=
      { objtotal := 4, memtotal := 8192, numclusters := 2, objfree := 4,
        lut := [], bitmap := none, bitmap_slots := 0, objminsize := 64,
        objmaxsize := 65536, nummin := 4, nummax := 1000000, _objtotal := 4,
        _objsize := 2048, _clustsize := 4096, _clustentries := 2,
        _numclusters := 2, r_objtotal := 4, r_objsize := 2048 }
     let nmd : netmap_mem_d :=
      { pools_if := pool0, pools_ring := pool0, pools_buf := pool0,
        flags_finalized := true, lasterr := 0, active := 1, nm_totalsize := 0,
        params_if := ⟨1024, 100, 512, 50⟩, params_ring := ⟨4096, 200, 4096, 200⟩,
        params_buf := ⟨2048, 163840, 2048, 163840⟩ }
     0 < nmd.active ∧ (netmap_mem2_config nmd).1 = nmd) := by
  refine ⟨by decide, ?_⟩
  exact (netmap_mem2_config_active_locked _ (by decide)).1

/-! ## Offset lookup and round trip (claim C6) -/

theorem getD_set_self' {α : Type} (l : List α) (i : Nat) (x d : α)
    (h : i < l.length) : (l.set i x).getD i d = x := by
  rw [List.getD_eq_getElem?_getD, List.getElem?_set_self h]
  rfl

theorem getD_set_ne' {α : Type} (l : List α) (i k : Nat) (x d : α)
    (h : i ≠ k) : (l.set i x).getD k d = l.getD k d := by
  rw [List.getD_eq_getElem?_getD, List.getElem?_set_ne h,
    ← List.getD_eq_getElem?_getD]

/-- The cluster scan of `netmap_obj_offset`:
`for (i = 0, ofs = 0; i < n; i += k, ofs += p->_clustsize) { base =
p->lut[i].vaddr; relofs = vaddr - base; if (relofs < 0 || relofs >=
p->_clustsize) continue; return ofs + relofs; }`.  Addresses are `Nat`; the
signed comparison `relofs < 0` becomes `vaddr < base`.  `none` is returned
where the C code falls through and returns 0 with an error message. -/
def netmap_obj_offset_go (lut : List (Option Nat)) (k n clustsize vaddr : Nat) :
    Nat → Nat → Nat → Option Nat
  | 0, _, _ => none
  | fuel + 1, i, ofs =>
    if i < n then
      let base := (lut.getD i none).getD 0
      if vaddr < base ∨ base + clustsize ≤ vaddr then
        netmap_obj_offset_go lut k n clustsize vaddr fuel (i + k) (ofs + clustsize)
      else some (ofs + (vaddr - base))
    else none

/-- `netmap_obj_offset(p, vaddr)` (0 on error, as in the C code). -/
def netmap_obj_offset (p : netmap_obj_pool) (vaddr : Nat) : Nat :=
  (netmap_obj_offset_go p.lut p._clustentries p.objtotal p._clustsize vaddr
    (p.objtotal + 1) 0 0).getD 0

/-- The per-pool lookup of `netmap_mem2_ofstophys` with `vtophys` abstracted
to the identity on addresses: the object containing pool-relative `offset`
is `lut[offset / _objsize]` and the byte offset within it `offset %
_objsize`. -/
def netmap_obj_ofs_to_vaddr (p : netmap_obj_pool) (offset : Nat) : Nat :=
  ((p.lut.getD (offset / p._objsize) none).getD 0) + offset % p._objsize

/-- Well-formedness of a finalized pool: every live lut entry sits at stride
`_objsize` inside its cluster, clusters are `_clustentries * _objsize` bytes,
and distinct clusters occupy disjoint address ranges. -/
def pool_clusters_wf (p : netmap_obj_pool) (base : Nat → Nat) : Prop :=
  0 < p._objsize ∧ 0 < p._clustentries ∧
  p._clustsize = p._clustentries * p._objsize ∧
  (∀ i, i < p.objtotal →
    p.lut.getD i none
      = some (base (i / p._clustentries) + (i % p._clustentries) * p._objsize)) ∧
  (∀ c c', c ≠ c' →
    base c + p._clustsize ≤ base c' ∨ base c' + p._clustsize ≤ base c)

theorem obj_offset_go_spec (p : netmap_obj_pool) (base : Nat → Nat)
    (hwf : pool_clusters_wf p base) (i : Nat) (hi : i < p.objtotal) :
    ∀ (fuel c' : Nat),
    c' ≤ i / p._clustentries →
    i / p._clustentries - c' < fuel →
    netmap_obj_offset_go p.lut p._clustentries p.objtotal p._clustsize
        (base (i / p._clustentries) + (i % p._clustentries) * p._objsize)
        fuel (c' * p._clustentries) (c' * p._clustsize)
      = some (i * p._objsize) := by
  obtain ⟨hobj, hce, hcs, hlut, hdisj⟩ := hwf
  set k := p._clustentries with hkdef
  set c := i / k with hcdef
  have hik : c * k ≤ i := Nat.div_mul_le_self i k
  have hvaddr_lo : base c ≤ base c + (i % k) * p._objsize := Nat.le_add_right _ _
  have hvaddr_hi : (i % k) * p._objsize < p._clustsize := by
    rw [hcs]
    have hmod : i % k < k := Nat.mod_lt _ hce
    exact (Nat.mul_lt_mul_right hobj).mpr hmod
  intro fuel
  induction fuel with
  | zero => intro c' _ hlt; omega
  | succ fuel ih =>
    intro c' hc'le hlt
    rw [netmap_obj_offset_go]
    have hik' : c' * k < p.objtotal := by
      calc c' * k ≤ c * k := Nat.mul_le_mul_right k hc'le
        _ ≤ i := hik
        _ < p.objtotal := hi
    rw [if_pos hik']
    have hbase' : (p.lut.getD (c' * k) none).getD 0 = base c' := by
      rw [hlut (c' * k) hik']
      have h1 : c' * k / k = c' := Nat.mul_div_cancel c' hce
      have h2 : c' * k % k = 0 := Nat.mul_mod_left c' k
      rw [h1, h2]
      simp
    rw [hbase']
    by_cases hc'c : c' = c
    · rw [if_neg (by rw [hc'c]; omega)]
      rw [hc'c]
      have hgoal : c * p._clustsize + (base c + (i % k) * p._objsize - base c)
          = i * p._objsize := by
        have hsub : base c + (i % k) * p._objsize - base c
            = (i % k) * p._objsize := by omega
        rw [hsub, hcs]
        have hieq : i = c * k + i % k := by
          rw [hcdef, Nat.mul_comm (i / k) k]
          exact (Nat.div_add_mod i k).symm
        calc c * (k * p._objsize) + i % k * p._objsize
            = (c * k + i % k) * p._objsize := by ring
          _ = i * p._objsize := by rw [← hieq]
      rw [hgoal]
    · have hskip : base c + (i % k) * p._objsize < base c' ∨
          base c' + p._clustsize ≤ base c + (i % k) * p._objsize := by
        rcases hdisj c c' (fun h => hc'c h.symm) with h | h
        · left; omega
        · right; omega
      rw [if_pos hskip]
      have hc'lt : c' < c := lt_of_le_of_ne hc'le hc'c
      have : (c' + 1) * k = c' * k + k := by ring
      rw [← this]
      have : (c' + 1) * p._clustsize = c' * p._clustsize + p._clustsize := by ring
      rw [← this]
      exact ih (c' + 1) (by omega) (by omega)

/-- Round trip at the pool level: converting a live object's address to its
pool-relative offset and back yields the address again. -/
theorem netmap_obj_offset_roundtrip (p : netmap_obj_pool) (base : Nat → Nat)
    (hwf : pool_clusters_wf p base) (i : Nat) (hi : i < p.objtotal) :
    netmap_obj_offset p ((p.lut.getD i none).getD 0) = i * p._objsize ∧
    netmap_obj_ofs_to_vaddr p (netmap_obj_offset p ((p.lut.getD i none).getD 0))
      = (p.lut.getD i none).getD 0 := by
  obtain ⟨hobj, hce, hcs, hlut, hdisj⟩ := hwf
  have hvaddr : (p.lut.getD i none).getD 0
      = base (i / p._clustentries) + (i % p._clustentries) * p._objsize := by
    rw [hlut i hi]
    rfl
  have hofs : netmap_obj_offset p ((p.lut.getD i none).getD 0)
      = i * p._objsize := by
    rw [hvaddr, netmap_obj_offset]
    have := obj_offset_go_spec p base ⟨hobj, hce, hcs, hlut, hdisj⟩ i hi
      (p.objtotal + 1) 0 (Nat.zero_le _)
      (by
        have : i / p._clustentries ≤ i := Nat.div_le_self i _
        omega)
    rw [Nat.zero_mul, Nat.zero_mul] at this
    rw [this]
    rfl
  refine ⟨hofs, ?_⟩
  rw [hofs, netmap_obj_ofs_to_vaddr, Nat.mul_div_cancel i hobj,
    Nat.mul_mod_left i p._objsize, Nat.add_zero]

/-! ## Pool finalize with graceful degradation (claim C3) -/

/-- The inner fill of `netmap_finalize_obj_allocator`:
`for (; i < lim; i++, clust += p->_objsize) { p->lut[i].vaddr = clust; }`. -/
def nm_fill_cluster (objsize : Nat) :
    List (Option Nat) → Nat → Nat → Nat → List (Option Nat)
  | lut, _, _, 0 => lut
  | lut, i, clust, rem + 1 =>
      nm_fill_cluster objsize (lut.set i (some clust)) (i + 1) (clust + objsize) rem

/-- The halving cleanup of `netmap_finalize_obj_allocator`:
`for (i--; i >= lim; i--) { ... p->lut[i].vaddr = NULL; }` nulls entries
`[lo, lo + rem)`; the model walks downward like the C loop. -/
def nm_null_range : List (Option Nat) → Nat → Nat → List (Option Nat)
  | lut, _, 0 => lut
  | lut, lo, rem + 1 => nm_null_range (lut.set (lo + rem) none) lo rem

/-- The cluster loop of `netmap_finalize_obj_allocator`.  `avail c` models
whether the `contigmalloc` for cluster `c` succeeds and `base c` the address
it returns.  `otot`/`nc` are the optimistic `p->objtotal`/`p->numclusters`;
the loop index is `i = k * ce`.  Returns the lut and the final
`(objtotal, numclusters)`.  On failure at `i`: if `i < 2` there is nothing
to halve and the loop exits with `objtotal = i`; otherwise entries
`[i/2, i)` are nulled, the index underruns to `i/2 - 1` when the loop ends,
and `objtotal = i/2 - 1`, `numclusters = ceil(objtotal/ce)`. -/
def netmap_finalize_clusters (ce objsize otot nc : Nat) (avail : Nat → Bool)
    (base : Nat → Nat) :
    Nat → Nat → List (Option Nat) → List (Option Nat) × Nat × Nat
  | 0, _, lut => (lut, otot, nc)
  | rem + 1, k, lut =>
    if k * ce < otot then
      if avail k then
        netmap_finalize_clusters ce objsize otot nc avail base rem (k + 1)
          (nm_fill_cluster objsize lut (k * ce) (base k) ce)
      else
        if k * ce < 2 then (lut, k * ce, (k * ce + ce - 1) / ce)
        else
          (nm_null_range lut (k * ce / 2) (k * ce - k * ce / 2),
           k * ce / 2 - 1, ((k * ce / 2 - 1) + ce - 1) / ce)
    else (lut, otot, nc)

/-- `netmap_finalize_obj_allocator(p)`.  The lut is `vmalloc`ed (its entries
beyond the final `objtotal` are never read; the model starts them at
`none`); allocation failure of the lut itself is not modelled, so the
function always returns 0 - on cluster exhaustion it degrades instead of
failing, and the `ENOMEM` of the scarce path surfaces later from
`netmap_init_obj_allocator_bitmap`. -/
def netmap_finalize_obj_allocator (p : netmap_obj_pool) (avail : Nat → Bool)
    (base : Nat → Nat) : netmap_obj_pool × Nat :=
  let r := netmap_finalize_clusters p._clustentries p._objsize p._objtotal
    p._numclusters avail base p._numclusters 0
    (List.replicate p._objtotal none)
  ({ p with lut := r.1, objtotal := r.2.1, numclusters := r.2.2,
            memtotal := r.2.2 * p._clustsize }, 0)

theorem nm_fill_cluster_getD (objsize : Nat) :
    ∀ (rem : Nat) (lut : List (Option Nat)) (i clust j : Nat),
    (nm_fill_cluster objsize lut i clust rem).getD j none
      = if i ≤ j ∧ j < i + rem ∧ j < lut.length then
          some (clust + (j - i) * objsize)
        else lut.getD j none := by
  intro rem
  induction rem with
  | zero =>
    intro lut i clust j
    rw [nm_fill_cluster]
    rw [if_neg (by omega)]
  | succ rem ih =>
    intro lut i clust j
    rw [nm_fill_cluster, ih]
    by_cases hj : i + 1 ≤ j ∧ j < i + 1 + rem ∧ j < (lut.set i (some clust)).length
    · rw [if_pos hj]
      obtain ⟨hj1, hj2, hj3⟩ := hj
      rw [List.length_set] at hj3
      rw [if_pos ⟨by omega, by omega, hj3⟩]
      have hd : j - i = (j - (i + 1)) + 1 := by omega
      rw [hd, Nat.succ_mul]
      have : clust + objsize + (j - (i + 1)) * objsize
          = clust + ((j - (i + 1)) * objsize + objsize) := by ring
      rw [this]
    · rw [if_neg hj]
      rw [List.length_set] at hj
      by_cases hji : i = j
      · subst hji
        by_cases hlen : i < lut.length
        · rw [getD_set_self' lut i (some clust) none hlen,
            if_pos ⟨le_rfl, by omega, hlen⟩]
          rw [Nat.sub_self, Nat.zero_mul, Nat.add_zero]
        · rw [List.set_eq_of_length_le (by omega), if_neg (by omega)]
      · rw [getD_set_ne' lut i j (some clust) none hji]
        rw [if_neg (by omega)]

theorem nm_null_range_getD :
    ∀ (rem : Nat) (lut : List (Option Nat)) (lo j : Nat),
    (nm_null_range lut lo rem).getD j none
      = if lo ≤ j ∧ j < lo + rem then none else lut.getD j none := by
  intro rem
  induction rem with
  | zero =>
    intro lut lo j
    rw [nm_null_range, if_neg (by omega)]
  | succ rem ih =>
    intro lut lo j
    rw [nm_null_range, ih]
    by_cases hj : lo ≤ j ∧ j < lo + rem
    · rw [if_pos hj, if_pos (by omega)]
    · rw [if_neg hj]
      by_cases hje : lo + rem = j
      · rw [if_pos (by omega)]
        by_cases hlen : lo + rem < lut.length
        · rw [← hje, getD_set_self' lut (lo + rem) none none hlen]
        · rw [List.set_eq_of_length_le (by omega)]
          rw [List.getD_eq_getElem?_getD, List.getElem?_eq_none (by omega)]
          rfl
      · rw [getD_set_ne' lut (lo + rem) j none none hje, if_neg (by omega)]

theorem nm_fill_cluster_length (objsize : Nat) :
    ∀ (rem : Nat) (lut : List (Option Nat)) (i clust : Nat),
    (nm_fill_cluster objsize lut i clust rem).length = lut.length := by
  intro rem
  induction rem with
  | zero => intro lut i clust; rfl
  | succ rem ih =>
    intro lut i clust
    rw [nm_fill_cluster, ih, List.length_set]

/-- Behaviour of the cluster loop when the first `contigmalloc` failure is at
cluster `f`: the loop fills clusters `0..f-1`, then degrades. -/
theorem finalize_clusters_spec (ce objsize otot nc : Nat) (avail : Nat → Bool)
    (base : Nat → Nat) (hce : 0 < ce) (hot : otot = nc * ce) (f : Nat)
    (hf : f < nc) (hbefore : ∀ m, m < f → avail m = true)
    (hfail : avail f = false) :
    ∀ (rem k : Nat) (lut : List (Option Nat)), k ≤ f → rem = nc - k →
    lut.length = otot →
    (∀ j, j < otot →
      lut.getD j none = if j < k * ce then
        some (base (j / ce) + (j % ce) * objsize) else none) →
    (((netmap_finalize_clusters ce objsize otot nc avail base rem k lut).2.1,
      (netmap_finalize_clusters ce objsize otot nc avail base rem k lut).2.2)
        = (if f * ce < 2 then (f * ce, (f * ce + ce - 1) / ce)
           else (f * ce / 2 - 1, ((f * ce / 2 - 1) + ce - 1) / ce))) ∧
    (∀ j, j < (netmap_finalize_clusters ce objsize otot nc avail base rem k lut).2.1 →
      (netmap_finalize_clusters ce objsize otot nc avail base rem k lut).1.getD j none
        = some (base (j / ce) + (j % ce) * objsize)) := by
  intro rem
  induction rem with
  | zero =>
    intro k lut hkf hrem _ _
    omega
  | succ rem ih =>
    intro k lut hkf hrem hlen hpre
    have hkn : k < nc := by omega
    have hklt : k * ce < otot := by
      rw [hot]
      exact Nat.mul_lt_mul_right hce |>.mpr hkn
    rw [netmap_finalize_clusters, if_pos hklt]
    by_cases hkf' : k < f
    · rw [if_pos (hbefore k hkf')]
      apply ih (k + 1)
      · omega
      · omega
      · rw [nm_fill_cluster_length, hlen]
      · intro j hj
        rw [nm_fill_cluster_getD]
        by_cases hjin : k * ce ≤ j ∧ j < k * ce + ce ∧ j < lut.length
        · rw [if_pos hjin]
          obtain ⟨hj1, hj2, _⟩ := hjin
          have hdiv : j / ce = k := by
            apply Nat.div_eq_of_lt_le hj1
            rw [Nat.succ_mul]
            omega
          have hmod : j % ce = j - k * ce := by
            have hdm := Nat.div_add_mod j ce
            rw [hdiv] at hdm
            have hck : ce * k = k * ce := Nat.mul_comm ce k
            omega
          rw [if_pos (show j < (k + 1) * ce by rw [Nat.succ_mul]; omega),
            hdiv, hmod]
        · rw [if_neg hjin, hpre j hj]
          have hlen' : j < lut.length := by omega
          by_cases hjk : j < k * ce
          · rw [if_pos hjk,
              if_pos (show j < (k + 1) * ce by rw [Nat.succ_mul]; omega)]
          · rw [if_neg hjk,
              if_neg (show ¬j < (k + 1) * ce by rw [Nat.succ_mul]; omega)]
    · have hkeq : k = f := by omega
      subst hkeq
      rw [if_neg (by rw [hfail]; simp)]
      by_cases hsmall : k * ce < 2
      · rw [if_pos hsmall]
        constructor
        · simp only
          rw [if_pos hsmall]
        · intro j hj
          simp only at hj ⊢
          rw [hpre j (by omega)]
          rw [if_pos (by omega)]
      · rw [if_neg hsmall]
        constructor
        · simp only
          rw [if_neg hsmall]
        · intro j hj
          simp only at hj ⊢
          rw [nm_null_range_getD]
          rw [if_neg (by omega)]
          rw [hpre j (by omega)]
          rw [if_pos (by omega)]

theorem init_bitmap_err (p : netmap_obj_pool) :
    (netmap_init_obj_allocator_bitmap p).2
      = if (netmap_init_obj_allocator_bitmap p).1.objfree = 0 then ENOMEM
        else 0 := rfl

/-- **C3 (amended).** When cluster allocation first fails at cluster `f`
during pool finalize: if at least two objects were already obtained
(`f*clustentries ≥ 2`), the loop halves and truncates, finalize returns
success with `objtotal = f*clustentries/2 - 1` (one less than half, possibly
mid-cluster and not a multiple of `clustentries`) and `numclusters =
⌈objtotal/clustentries⌉`; if fewer than two objects were obtained, finalize
still returns success with `objtotal = f*clustentries`.  Either way
`memtotal = numclusters*_clustsize`, every lut entry below the reduced
`objtotal` is backed, and the subsequent bitmap initialization yields
`objfree = objtotal` — failing with `ENOMEM` exactly when no object
remains, which is where the claim's `OutOfMemory` surfaces. -/
theorem netmap_finalize_obj_allocator_degrades (p : netmap_obj_pool)
    (avail : Nat → Bool) (base : Nat → Nat) (f : Nat)
    (hce : 0 < p._clustentries)
    (hot : p._objtotal = p._numclusters * p._clustentries)
    (hfresh : p.bitmap = none)
    (hf : f < p._numclusters)
    (hbefore : ∀ m, m < f → avail m = true)
    (hfail : avail f = false) :
    (netmap_finalize_obj_allocator p avail base).2 = 0 ∧
    (2 ≤ f * p._clustentries →
      (netmap_finalize_obj_allocator p avail base).1.objtotal
          = f * p._clustentries / 2 - 1 ∧
      (netmap_finalize_obj_allocator p avail base).1.numclusters
          = ((f * p._clustentries / 2 - 1) + p._clustentries - 1)
            / p._clustentries) ∧
    (f * p._clustentries < 2 →
      (netmap_finalize_obj_allocator p avail base).1.objtotal
          = f * p._clustentries ∧
      (netmap_finalize_obj_allocator p avail base).1.numclusters
          = (f * p._clustentries + p._clustentries - 1) / p._clustentries) ∧
    (netmap_finalize_obj_allocator p avail base).1.memtotal
      = (netmap_finalize_obj_allocator p avail base).1.numclusters *
        p._clustsize ∧
    (∀ j, j < (netmap_finalize_obj_allocator p avail base).1.objtotal →
      ((netmap_finalize_obj_allocator p avail base).1.lut.getD j none).isSome
        = true) ∧
    ((netmap_finalize_obj_allocator p avail base).1.objtotal = 0 →
      (netmap_init_obj_allocator_bitmap
        (netmap_finalize_obj_allocator p avail base).1).2 = ENOMEM) ∧
    (0 < (netmap_finalize_obj_allocator p avail base).1.objtotal →
      (netmap_init_obj_allocator_bitmap
        (netmap_finalize_obj_allocator p avail base).1).2 = 0 ∧
      (netmap_init_obj_allocator_bitmap
        (netmap_finalize_obj_allocator p avail base).1).1.objfree
        = (netmap_finalize_obj_allocator p avail base).1.objtotal) := by
  have hpre0 : ∀ j, j < p._objtotal →
      (List.replicate p._objtotal (none : Option Nat)).getD j none
        = if j < 0 * p._clustentries then
            some (base (j / p._clustentries) + (j % p._clustentries) * p._objsize)
          else none := by
    intro j hj
    rw [if_neg (by rw [Nat.zero_mul]; omega)]
    rw [List.getD_eq_getElem?_getD, List.getElem?_replicate]
    split <;> rfl
  obtain ⟨hpair, hlutc⟩ := finalize_clusters_spec p._clustentries p._objsize
    p._objtotal p._numclusters avail base hce hot f hf hbefore hfail
    p._numclusters 0 (List.replicate p._objtotal none) (Nat.zero_le f)
    (by omega) (List.length_replicate _ _) hpre0
  have hO : (netmap_finalize_obj_allocator p avail base).1.objtotal
      = (netmap_finalize_clusters p._clustentries p._objsize p._objtotal
          p._numclusters avail base p._numclusters 0
          (List.replicate p._objtotal none)).2.1 := rfl
  have hN : (netmap_finalize_obj_allocator p avail base).1.numclusters
      = (netmap_finalize_clusters p._clustentries p._objsize p._objtotal
          p._numclusters avail base p._numclusters 0
          (List.replicate p._objtotal none)).2.2 := rfl
  have hL : (netmap_finalize_obj_allocator p avail base).1.lut
      = (netmap_finalize_clusters p._clustentries p._objsize p._objtotal
          p._numclusters avail base p._numclusters 0
          (List.replicate p._objtotal none)).1 := rfl
  have hpresent : ∀ j, j < (netmap_finalize_obj_allocator p avail base).1.objtotal →
      ((netmap_finalize_obj_allocator p avail base).1.lut.getD j none).isSome
        = true := by
    intro j hj
    rw [hO] at hj
    rw [hL, hlutc j hj]
    rfl
  have hqfresh : (netmap_finalize_obj_allocator p avail base).1.bitmap = none := by
    show p.bitmap = none
    exact hfresh
  obtain ⟨_, _, _, hofree⟩ :=
    init_bitmap_fresh_spec (netmap_finalize_obj_allocator p avail base).1 hqfresh
  have hfilter : (netmap_init_obj_allocator_bitmap
      (netmap_finalize_obj_allocator p avail base).1).1.objfree
      = (netmap_finalize_obj_allocator p avail base).1.objtotal := by
    rw [hofree]
    have : ((List.range (netmap_finalize_obj_allocator p avail base).1.objtotal).filter
        fun j => ((netmap_finalize_obj_allocator p avail base).1.lut.getD j none).isSome)
        = List.range (netmap_finalize_obj_allocator p avail base).1.objtotal := by
      apply List.filter_eq_self.mpr
      intro a ha
      rw [List.mem_range] at ha
      exact hpresent a ha
    rw [this, List.length_range]
  refine ⟨rfl, ?_, ?_, rfl, hpresent, ?_, ?_⟩
  · intro hge
    rw [if_neg (by omega)] at hpair
    exact ⟨by rw [hO, congrArg Prod.fst hpair], by rw [hN, congrArg Prod.snd hpair]⟩
  · intro hlt
    rw [if_pos hlt] at hpair
    exact ⟨by rw [hO, congrArg Prod.fst hpair], by rw [hN, congrArg Prod.snd hpair]⟩
  · intro hzero
    rw [init_bitmap_err, if_pos (by rw [hfilter, hzero])]
  · intro hpos
    refine ⟨?_, hfilter⟩
    rw [init_bitmap_err, if_neg (by rw [hfilter]; omega)]

/-- Witness for C3 (amended): a pool of 4 two-object clusters whose cluster
allocation fails at the third cluster; finalize succeeds with `objtotal = 1`
(half of 4, minus one) and the bitmap then carries one free object. -/
theorem netmap_finalize_obj_allocator_degrades_witness :
    (let p : netmap_obj_pool :=
      { objtotal := 0, memtotal := 0, numclusters := 0, objfree := 0,
        lut := [], bitmap := none, bitmap_slots := 0, objminsize := 64,
        objmaxsize := 65536, nummin := 4, nummax := 1000000, _objtotal := 8,
        _objsize := 2048, _clustsize := 4096, _clustentries := 2,
        _numclusters := 4, r_objtotal := 8, r_objsize := 2048 }
     let r := netmap_finalize_obj_allocator p (fun m => decide (m < 2))
       (fun m => 4096 * m + 65536)
     r.2 = 0 ∧ r.1.objtotal = 1 ∧ r.1.numclusters = 1) := by
  intro p r
  have h := netmap_finalize_obj_allocator_degrades p (fun m => decide (m < 2))
    (fun m => 4096 * m + 65536) 2 (by decide) (by decide) (by decide)
    (by decide) (by decide) (by decide)
  exact ⟨h.1, by rw [(h.2.1 (by decide)).1]; decide,
    by rw [(h.2.1 (by decide)).2]; decide⟩

/-- Counterexample to C3 as stated: with clusters of 2 objects and the first
allocation failure at the third cluster — i.e. after two clusters were
already obtained — finalize returns success but with `objtotal = 1`, which
is neither half the already-allocated amount (2 clusters = 4 objects) nor
equal to `numclusters * clustentries` (= 2). -/
theorem netmap_finalize_halving_counterexample :
    (let p : netmap_obj_pool :=
      { objtotal := 0, memtotal := 0, numclusters := 0, objfree := 0,
        lut := [], bitmap := none, bitmap_slots := 0, objminsize := 64,
        objmaxsize := 65536, nummin := 4, nummax := 1000000, _objtotal := 8,
        _objsize := 2048, _clustsize := 4096, _clustentries := 2,
        _numclusters := 4, r_objtotal := 8, r_objsize := 2048 }
     let r := netmap_finalize_obj_allocator p (fun m => decide (m < 2))
       (fun m => 4096 * m + 65536)
     r.2 = 0 ∧ r.1.objtotal = 1 ∧ r.1.numclusters = 1 ∧
       r.1._clustentries = 2 ∧
       r.1.objtotal ≠ r.1.numclusters * r.1._clustentries) := by
  decide

/-! ## Domain finalize (`netmap_mem_finalize_all`) -/

/-- `netmap_mem_reset_all(nmd)`: reset all pools, clear `FINALIZED`. -/
def netmap_mem_reset_all (nmd : netmap_mem_d) : netmap_mem_d :=
  { nmd with pools_if := netmap_reset_obj_allocator nmd.pools_if,
             pools_ring := netmap_reset_obj_allocator nmd.pools_ring,
             pools_buf := netmap_reset_obj_allocator nmd.pools_buf,
             flags_finalized := false }

/-- The pool-finalization prefix of `netmap_mem_finalize_all`: finalize the
three pools in order and accumulate `nm_totalsize`. -/
def nm_finalize_pools (nmd : netmap_mem_d)
    (av_if av_ring av_buf : Nat → Bool)
    (b_if b_ring b_buf : Nat → Nat) : netmap_mem_d :=
  { nmd with
    pools_if := (netmap_finalize_obj_allocator nmd.pools_if av_if b_if).1,
    pools_ring := (netmap_finalize_obj_allocator nmd.pools_ring av_ring b_ring).1,
    pools_buf := (netmap_finalize_obj_allocator nmd.pools_buf av_buf b_buf).1,
    nm_totalsize :=
      (netmap_finalize_obj_allocator nmd.pools_if av_if b_if).1.memtotal
      + (netmap_finalize_obj_allocator nmd.pools_ring av_ring b_ring).1.memtotal
      + (netmap_finalize_obj_allocator nmd.pools_buf av_buf b_buf).1.memtotal }

/-- `netmap_mem_finalize_all(nmd)`: finalize the three pools in order while
accumulating `nm_totalsize`, init the bitmaps, set `FINALIZED`; on a bitmap
error reset everything and propagate.  The per-pool cluster oracles stand
for `contigmalloc`; the pool finalizer itself always returns 0 here (its
only C failure is lut allocation, which is not modelled). -/
def netmap_mem_finalize_all (nmd : netmap_mem_d)
    (av_if av_ring av_buf : Nat → Bool)
    (b_if b_ring b_buf : Nat → Nat) : netmap_mem_d × Nat :=
  if nmd.flags_finalized then (nmd, 0)
  else
    let rb := netmap_mem_init_bitmaps
      (nm_finalize_pools nmd av_if av_ring av_buf b_if b_ring b_buf)
    if rb.2 ≠ 0 then
      ({ netmap_mem_reset_all rb.1 with lasterr := rb.2 }, rb.2)
    else
      ({ rb.1 with flags_finalized := true, lasterr := 0 }, 0)

/-- Bitmap initialization never changes any pool's `memtotal` nor the
domain's `nm_totalsize`, on any of its paths. -/
theorem mem_init_bitmaps_preserves_memtotal (nmd : netmap_mem_d) :
    (netmap_mem_init_bitmaps nmd).1.pools_if.memtotal = nmd.pools_if.memtotal ∧
    (netmap_mem_init_bitmaps nmd).1.pools_ring.memtotal
      = nmd.pools_ring.memtotal ∧
    (netmap_mem_init_bitmaps nmd).1.pools_buf.memtotal
      = nmd.pools_buf.memtotal ∧
    (netmap_mem_init_bitmaps nmd).1.nm_totalsize = nmd.nm_totalsize := by
  simp only [netmap_mem_init_bitmaps]
  split_ifs <;> exact ⟨rfl, rfl, rfl, rfl⟩

theorem netmap_mem_finalize_all_totalsize (nmd : netmap_mem_d)
    (av_if av_ring av_buf : Nat → Bool) (b_if b_ring b_buf : Nat → Nat)
    (hnf : nmd.flags_finalized = false)
    (hok : (netmap_mem_finalize_all nmd av_if av_ring av_buf b_if b_ring b_buf).2
        = 0) :
    (netmap_mem_finalize_all nmd av_if av_ring av_buf b_if b_ring b_buf).1.nm_totalsize
      = (netmap_mem_finalize_all nmd av_if av_ring av_buf b_if b_ring b_buf).1.pools_if.memtotal
        + (netmap_mem_finalize_all nmd av_if av_ring av_buf b_if b_ring b_buf).1.pools_ring.memtotal
        + (netmap_mem_finalize_all nmd av_if av_ring av_buf b_if b_ring b_buf).1.pools_buf.memtotal := by
  simp only [netmap_mem_finalize_all, hnf, Bool.false_eq_true, if_false] at hok ⊢
  by_cases hrb : (netmap_mem_init_bitmaps
      (nm_finalize_pools nmd av_if av_ring av_buf b_if b_ring b_buf)).2 ≠ 0
  · rw [if_pos hrb] at hok
    exact absurd hok hrb
  · rw [if_neg hrb] at hok ⊢
    obtain ⟨hmi, hmr, hmb, hts⟩ := mem_init_bitmaps_preserves_memtotal
      (nm_finalize_pools nmd av_if av_ring av_buf b_if b_ring b_buf)
    show (netmap_mem_init_bitmaps
        (nm_finalize_pools nmd av_if av_ring av_buf b_if b_ring b_buf)).1.nm_totalsize
      = (netmap_mem_init_bitmaps _).1.pools_if.memtotal
        + (netmap_mem_init_bitmaps _).1.pools_ring.memtotal
        + (netmap_mem_init_bitmaps _).1.pools_buf.memtotal
    rw [hmi, hmr, hmb, hts]
    rfl

/-- **C6.** For every finalized well-formed pool and live object index `i`,
converting `lut[i].vaddr` to its pool-relative byte offset
(`netmap_obj_offset`) and converting that offset back to an address (the
per-pool lookup of `netmap_mem2_ofstophys`) yields `lut[i].vaddr` again; and
on a successful domain finalize the total shared region size equals the sum
of the three pools' `memtotal`. -/
theorem offset_roundtrip_and_totalsize (p : netmap_obj_pool)
    (base : Nat → Nat) (i : Nat)
    (hwf : pool_clusters_wf p base) (hi : i < p.objtotal)
    (nmd : netmap_mem_d) (av_if av_ring av_buf : Nat → Bool)
    (b_if b_ring b_buf : Nat → Nat)
    (hnf : nmd.flags_finalized = false)
    (hok : (netmap_mem_finalize_all nmd av_if av_ring av_buf b_if b_ring b_buf).2
        = 0) :
    (netmap_obj_offset p ((p.lut.getD i none).getD 0) = i * p._objsize ∧
     netmap_obj_ofs_to_vaddr p
        (netmap_obj_offset p ((p.lut.getD i none).getD 0))
       = (p.lut.getD i none).getD 0) ∧
    (netmap_mem_finalize_all nmd av_if av_ring av_buf b_if b_ring b_buf).1.nm_totalsize
      = (netmap_mem_finalize_all nmd av_if av_ring av_buf b_if b_ring b_buf).1.pools_if.memtotal
        + (netmap_mem_finalize_all nmd av_if av_ring av_buf b_if b_ring b_buf).1.pools_ring.memtotal
        + (netmap_mem_finalize_all nmd av_if av_ring av_buf b_if b_ring b_buf).1.pools_buf.memtotal :=
  ⟨netmap_obj_offset_roundtrip p base hwf i hi,
   netmap_mem_finalize_all_totalsize nmd av_if av_ring av_buf b_if b_ring b_buf
     hnf hok⟩

/-- Witness for C6: a 4-object pool with two adjacent 4096-byte clusters
(object 3 at address 6144), and a small domain whose finalize succeeds. -/
theorem offset_roundtrip_and_totalsize_witness :
    (let p : netmap_obj_pool :=
      { objtotal := 4, memtotal := 8192, numclusters := 2, objfree := 4,
        lut := [some 0, some 2048, some 4096, some 6144], bitmap := none,
        bitmap_slots := 0, objminsize := 64, objmaxsize := 65536,
        nummin := 4, nummax := 1000000, _objtotal := 4, _objsize := 2048,
        _clustsize := 4096, _clustentries := 2, _numclusters := 2,
        r_objtotal := 4, r_objsize := 2048 }
     let pool0 : netmap_obj_pool :=
      { objtotal := 0, memtotal := 0, numclusters := 0, objfree := 0,
        lut := [], bitmap := none, bitmap_slots := 0, objminsize := 64,
        objmaxsize := 65536, nummin := 4, nummax := 1000000, _objtotal := 4,
        _objsize := 2048, _clustsize := 4096, _clustentries := 2,
        _numclusters := 2, r_objtotal := 4, r_objsize := 2048 }
     let nmd : netmap_mem_d :=
      { pools_if := pool0, pools_ring := pool0, pools_buf := pool0,
        flags_finalized := false, lasterr := 0, active := 0, nm_totalsize := 0,
        params_if := ⟨0, 0, 0, 0⟩, params_ring := ⟨0, 0, 0, 0⟩,
        params_buf := ⟨0, 0, 0, 0⟩ }
     3 < p.objtotal ∧
       netmap_obj_ofs_to_vaddr p
          (netmap_obj_offset p ((p.lut.getD 3 none).getD 0))
         = (p.lut.getD 3 none).getD 0 ∧
       (netmap_mem_finalize_all nmd (fun _ => true) (fun _ => true)
          (fun _ => true) (fun c => 4096 * c) (fun c => 4096 * c)
          (fun c => 4096 * c)).1.nm_totalsize
         = (netmap_mem_finalize_all nmd (fun _ => true) (fun _ => true)
            (fun _ => true) (fun c => 4096 * c) (fun c => 4096 * c)
            (fun c => 4096 * c)).1.pools_if.memtotal
           + (netmap_mem_finalize_all nmd (fun _ => true) (fun _ => true)
              (fun _ => true) (fun c => 4096 * c) (fun c => 4096 * c)
              (fun c => 4096 * c)).1.pools_ring.memtotal
           + (netmap_mem_finalize_all nmd (fun _ => true) (fun _ => true)
              (fun _ => true) (fun c => 4096 * c) (fun c => 4096 * c)
              (fun c => 4096 * c)).1.pools_buf.memtotal) := by
  intro p pool0 nmd
  have hwf : pool_clusters_wf p (fun c => 4096 * c) := by
    refine ⟨by decide, by decide, by decide, by decide, ?_⟩
    intro c c' hne
    show 4096 * c + p._clustsize ≤ 4096 * c' ∨
      4096 * c' + p._clustsize ≤ 4096 * c
    show 4096 * c + 4096 ≤ 4096 * c' ∨ 4096 * c' + 4096 ≤ 4096 * c
    rcases Nat.lt_or_ge c c' with h | h
    · left
      calc 4096 * c + 4096 = 4096 * (c + 1) := by ring
        _ ≤ 4096 * c' := Nat.mul_le_mul_left 4096 h
    · have hlt : c' < c := lt_of_le_of_ne h (fun he => hne he.symm)
      right
      calc 4096 * c' + 4096 = 4096 * (c' + 1) := by ring
        _ ≤ 4096 * c := Nat.mul_le_mul_left 4096 hlt
  have h := offset_roundtrip_and_totalsize p (fun c => 4096 * c) 3 hwf
    (by decide) nmd (fun _ => true) (fun _ => true) (fun _ => true)
    (fun c => 4096 * c) (fun c => 4096 * c) (fun c => 4096 * c)
    (by decide) (by decide)
  exact ⟨by decide, h.1.2, h.2⟩

/-! ## veth kring cross-link (claim C7) -/

/-- `enum txrx`. -/
inductive txrx where
  | tx
  | rx
  deriving DecidableEq, Repr

/-- `nm_txrx_swap`. -/
def nm_txrx_swap : txrx → txrx
  | txrx.tx => txrx.rx
  | txrx.rx => txrx.tx

/-- The two adapters of a veth pair (`na` and `peer_na`). -/
inductive veth_side where
  | A
  | B
  deriving DecidableEq, Repr

/-- The peer adapter (`priv->peer`). -/
def veth_other : veth_side → veth_side
  | veth_side.A => veth_side.B
  | veth_side.B => veth_side.A

/-- Identity of one kring inside a veth pair: adapter, direction, ring index
(`NMR(na, t)[i]`). -/
structure kring_id where
  side : veth_side
  dir : txrx
  idx : Nat
  deriving DecidableEq, Repr

/-- The `pipe` fields of all krings of the pair (`none` = NULL). -/
def PipeState : Type := kring_id → Option kring_id

/-- Assignment `k->pipe = v`. -/
def pipe_update (s : PipeState) (k : kring_id) (v : Option kring_id) :
    PipeState :=
  fun k' => if k' = k then v else s k'

/-- The inner loop of the cross-link in `veth_netmap_krings_create` for one
direction `t`: `for (i = 0; i < nma_get_nrings(na, t); i++) {
NMR(na, t)[i].pipe = NMR(peer_na, r) + i; NMR(peer_na, r)[i].pipe =
NMR(na, t) + i; }` with `r = nm_txrx_swap(t)`. -/
def veth_crosslink_dir (a : veth_side) (t : txrx) (n : Nat) (s : PipeState) :
    PipeState :=
  (List.range n).foldl
    (fun acc i =>
      pipe_update
        (pipe_update acc ⟨a, t, i⟩ (some ⟨veth_other a, nm_txrx_swap t, i⟩))
        ⟨veth_other a, nm_txrx_swap t, i⟩ (some ⟨a, t, i⟩)) s

/-- The full cross-link of `veth_netmap_krings_create` called on side `a`
(`for_rx_tx` iterates TX then RX; `nr` is `nma_get_nrings(na, ·)`). -/
def veth_crosslink (a : veth_side) (nr : txrx → Nat) (s : PipeState) :
    PipeState :=
  veth_crosslink_dir a txrx.rx (nr txrx.rx)
    (veth_crosslink_dir a txrx.tx (nr txrx.tx) s)

theorem veth_other_ne (a : veth_side) : veth_other a ≠ a := by
  cases a <;> decide

theorem nm_txrx_swap_swap (t : txrx) : nm_txrx_swap (nm_txrx_swap t) = t := by
  cases t <;> rfl

theorem nm_txrx_swap_ne (t : txrx) : nm_txrx_swap t ≠ t := by
  cases t <;> decide

theorem veth_crosslink_dir_apply (a : veth_side) (t : txrx) :
    ∀ (n : Nat) (s : PipeState) (k : kring_id),
    veth_crosslink_dir a t n s k =
      if k.side = a ∧ k.dir = t ∧ k.idx < n then
        some ⟨veth_other a, nm_txrx_swap t, k.idx⟩
      else if k.side = veth_other a ∧ k.dir = nm_txrx_swap t ∧ k.idx < n then
        some ⟨a, t, k.idx⟩
      else s k := by
  intro n
  induction n with
  | zero =>
    intro s k
    rw [veth_crosslink_dir]
    simp only [List.range_zero, List.foldl_nil]
    rw [if_neg (by omega), if_neg (by omega)]
  | succ n ih =>
    intro s k
    have hsucc : veth_crosslink_dir a t (n + 1) s
        = pipe_update
            (pipe_update (veth_crosslink_dir a t n s) ⟨a, t, n⟩
              (some ⟨veth_other a, nm_txrx_swap t, n⟩))
            ⟨veth_other a, nm_txrx_swap t, n⟩ (some ⟨a, t, n⟩) := by
      show veth_crosslink_dir a t (n + 1) s = _
      rw [veth_crosslink_dir, veth_crosslink_dir, List.range_succ,
        List.foldl_append, List.foldl_cons, List.foldl_nil]
    rw [hsucc]
    have hstep : ∀ (F : PipeState),
        (pipe_update
          (pipe_update F ⟨a, t, n⟩ (some ⟨veth_other a, nm_txrx_swap t, n⟩))
          ⟨veth_other a, nm_txrx_swap t, n⟩ (some ⟨a, t, n⟩)) k
        = if k = ⟨veth_other a, nm_txrx_swap t, n⟩ then some ⟨a, t, n⟩
          else if k = ⟨a, t, n⟩ then some ⟨veth_other a, nm_txrx_swap t, n⟩
          else F k := by
      intro F
      rw [pipe_update]
      by_cases h1 : k = ⟨veth_other a, nm_txrx_swap t, n⟩
      · rw [if_pos h1, if_pos h1]
      · rw [if_neg h1, if_neg h1, pipe_update]
    rw [hstep]
    obtain ⟨ks, kd, ki⟩ := k
    by_cases h1 : (⟨ks, kd, ki⟩ : kring_id) = ⟨veth_other a, nm_txrx_swap t, n⟩
    · rw [if_pos h1]
      rw [kring_id.mk.injEq] at h1
      obtain ⟨hs, hd, hi⟩ := h1
      subst hs; subst hd
      rw [hi]
      rw [if_neg (by simp [veth_other_ne a]),
        if_pos ⟨rfl, rfl, show n < n + 1 by omega⟩]
    · rw [if_neg h1]
      by_cases h2 : (⟨ks, kd, ki⟩ : kring_id) = ⟨a, t, n⟩
      · rw [if_pos h2]
        rw [kring_id.mk.injEq] at h2
        obtain ⟨hs, hd, hi⟩ := h2
        subst hs; subst hd
        rw [hi]
        rw [if_pos ⟨rfl, rfl, show n < n + 1 by omega⟩]
      · rw [if_neg h2, ih s ⟨ks, kd, ki⟩]
        rw [kring_id.mk.injEq] at h1 h2
        by_cases hc1 : ks = a ∧ kd = t ∧ ki < n
        · rw [if_pos hc1, if_pos ⟨hc1.1, hc1.2.1, show ki < n + 1 by omega⟩]
        · by_cases hc1' : ks = a ∧ kd = t ∧ ki < n + 1
          · exfalso
            obtain ⟨hs, hd, hi⟩ := hc1'
            have hki : ki = n := by
              by_cases hkin : ki < n
              · exact absurd ⟨hs, hd, hkin⟩ hc1
              · omega
            exact h2 ⟨hs, hd, hki⟩
          · rw [if_neg hc1, if_neg hc1']
            by_cases hc2 : ks = veth_other a ∧ kd = nm_txrx_swap t ∧ ki < n
            · rw [if_pos hc2,
                if_pos ⟨hc2.1, hc2.2.1, show ki < n + 1 by omega⟩]
            · by_cases hc2' : ks = veth_other a ∧ kd = nm_txrx_swap t ∧
                  ki < n + 1
              · exfalso
                obtain ⟨hs, hd, hi⟩ := hc2'
                have hki : ki = n := by
                  by_cases hkin : ki < n
                  · exact absurd ⟨hs, hd, hkin⟩ hc2
                  · omega
                exact h1 ⟨hs, hd, hki⟩
              · rw [if_neg hc2, if_neg hc2']

theorem veth_crosslink_apply (a : veth_side) (nr : txrx → Nat) (s : PipeState)
    (k : kring_id) :
    veth_crosslink a nr s k =
      if k.side = a ∧ k.idx < nr k.dir then
        some ⟨veth_other a, nm_txrx_swap k.dir, k.idx⟩
      else if k.side = veth_other a ∧ k.idx < nr (nm_txrx_swap k.dir) then
        some ⟨a, nm_txrx_swap k.dir, k.idx⟩
      else s k := by
  obtain ⟨ks, kd, ki⟩ := k
  rw [veth_crosslink, veth_crosslink_dir_apply, veth_crosslink_dir_apply]
  cases a <;> cases ks <;> cases kd <;>
    simp [nm_txrx_swap, veth_other]

/-- **C7.** After the cross-link of `veth_netmap_krings_create` on side `a`
of a veth pair: for every direction `t` and in-range ring index `i`, side
`a`'s kring `(t, i)` has `pipe` pointing to the peer's kring of the opposite
direction at the same index, and following `pipe` twice returns to the
original kring; the same holds for the peer side's krings touched by the
loop; and running the cross-link again changes nothing (idempotence). -/
theorem veth_crosslink_peer_symmetry (a : veth_side) (nr : txrx → Nat)
    (s : PipeState) (t : txrx) (i : Nat) (hi : i < nr t) :
    veth_crosslink a nr s ⟨a, t, i⟩ = some ⟨veth_other a, nm_txrx_swap t, i⟩ ∧
    veth_crosslink a nr s ⟨veth_other a, nm_txrx_swap t, i⟩ = some ⟨a, t, i⟩ ∧
    veth_crosslink a nr (veth_crosslink a nr s) = veth_crosslink a nr s := by
  refine ⟨?_, ?_, ?_⟩
  · rw [veth_crosslink_apply]
    rw [if_pos ⟨rfl, hi⟩]
  · rw [veth_crosslink_apply]
    rw [if_neg (by simp [veth_other_ne a]), if_pos ⟨rfl, by
      rw [nm_txrx_swap_swap]; exact hi⟩]
    rw [nm_txrx_swap_swap]
  · funext k
    rw [veth_crosslink_apply a nr (veth_crosslink a nr s) k,
      veth_crosslink_apply a nr s k]
    by_cases h1 : k.side = a ∧ k.idx < nr k.dir
    · rw [if_pos h1, if_pos h1]
    · rw [if_neg h1, if_neg h1]
      by_cases h2 : k.side = veth_other a ∧ k.idx < nr (nm_txrx_swap k.dir)
      · rw [if_pos h2, if_pos h2]
      · rw [if_neg h2, if_neg h2]

/-- Witness for C7 on a veth pair with one ring per direction, starting from
all-NULL pipe pointers. -/
theorem veth_crosslink_peer_symmetry_witness :
    (0 < 1 ∧
      (veth_crosslink veth_side.A (fun _ => 1) (fun _ => none)
          ⟨veth_side.A, txrx.tx, 0⟩
        = some ⟨veth_side.B, txrx.rx, 0⟩ ∧
       veth_crosslink veth_side.A (fun _ => 1) (fun _ => none)
          ⟨veth_side.B, txrx.rx, 0⟩
        = some ⟨veth_side.A, txrx.tx, 0⟩ ∧
       veth_crosslink veth_side.A (fun _ => 1)
          (veth_crosslink veth_side.A (fun _ => 1) (fun _ => none))
        = veth_crosslink veth_side.A (fun _ => 1) (fun _ => none))) :=
  ⟨by decide,
   veth_crosslink_peer_symmetry veth_side.A (fun _ => 1) (fun _ => none)
     txrx.tx 0 (by decide)⟩

end Netmap
